import Mathlib

/-!
Verification of the Up-Bank-to-YNAB reconciliation worker.

The development shallowly embeds the worker's core logic:

* the transaction mapper and `syncToYNAB` (src/src/index.ts, lines 538 to 707),
* `deleteFromYNAB` (src/src/up_types.ts, lines 1271 to 1309),
* `performResyncAll` (src/src/up_types.ts, lines 1348 to 1618).

The two remote ledgers are external services; their behaviour is modelled
from the spec's interface contracts (spec sections 3, 4.4 and 6).  Remote
call failures are modelled by boolean oracles; NaN amounts by `none`.
-/

namespace UpYnab

/-! ## JavaScript primitives

Models of the JavaScript built-ins the worker relies on:
`String.prototype.substring`, `String.prototype.startsWith`,
`String.prototype.replace` with a string pattern (first occurrence only),
the `x || d` default idiom on possibly-missing strings, `parseFloat`,
and `Math.round`.  Strings are handled through their character lists. -/

/-- Model of `s.substring(0, n)`. -/
def jsSubstring (s : String) (n : Nat) : String := ⟨s.data.take n⟩

/-- Character-list test backing the `startsWith` model. -/
def hasPre : List Char → List Char → Bool
  | [], _ => true
  | _ :: _, [] => false
  | p :: ps, c :: cs => p == c && hasPre ps cs

/-- Model of `s.startsWith(pat)`. -/
def jsStartsWith (s pat : String) : Bool := hasPre pat.data s.data

/-- Removes the first occurrence of `pat`; JS `s.replace(pat, "")` with a
string pattern replaces only the first occurrence. -/
def removeFirstAux (pat : List Char) : List Char → List Char
  | [] => []
  | c :: cs => if hasPre pat (c :: cs) then (c :: cs).drop pat.length else c :: removeFirstAux pat cs

/-- Model of `s.replace(pat, "")`. -/
def jsReplaceFirst (s pat : String) : String := ⟨removeFirstAux pat.data s.data⟩

/-- Model of the JS idiom `o || d` for a possibly-missing string `o`:
`undefined` and the empty string are falsy. -/
def jsOr (o : Option String) (d : String) : String :=
  match o with
  | some s => if s == "" then d else s
  | none => d

/-- Value of a digit list, most significant first. -/
def digitsVal (ds : List Char) : Nat :=
  ds.foldl (fun n c => 10 * n + (c.toNat - '0'.toNat)) 0

/-- The lexical shape of a successfully parsed float: sign, integer
digits, fraction digits and exponent. -/
structure FloatParse where
  neg : Bool
  intDs : List Char
  fracDs : List Char
  exp : ℤ
deriving DecidableEq

/-- The lexical part of JS `parseFloat`: leading whitespace, an optional
sign, decimal digits with an optional fraction and optional exponent;
trailing garbage is ignored; `none` when no number can be parsed at all. -/
def parseFloatLex (s : String) : Option FloatParse :=
  let cs := s.data.dropWhile (fun c => c == ' ' || c == '\t' || c == '\n' || c == '\r')
  let neg := cs.head? == some '-'
  let cs := if cs.head? == some '-' || cs.head? == some '+' then cs.tail else cs
  let intDs := cs.takeWhile Char.isDigit
  let cs₁ := cs.dropWhile Char.isDigit
  let fracDs := if cs₁.head? == some '.' then cs₁.tail.takeWhile Char.isDigit else []
  let cs₂ := if cs₁.head? == some '.' then cs₁.tail.dropWhile Char.isDigit else cs₁
  if intDs.isEmpty && fracDs.isEmpty then none
  else
    let expPart : ℤ :=
      if cs₂.head? == some 'e' || cs₂.head? == some 'E' then
        let r := cs₂.tail
        let esign : ℤ := if r.head? == some '-' then -1 else 1
        let r₁ := if r.head? == some '-' || r.head? == some '+' then r.tail else r
        let eds := r₁.takeWhile Char.isDigit
        if eds.isEmpty then 0 else esign * (digitsVal eds : ℤ)
      else 0
    some ⟨neg, intDs, fracDs, expPart⟩

/-- The numeric value of a parsed float. -/
def floatVal (p : FloatParse) : ℚ :=
  (if p.neg then -1 else 1) *
    ((digitsVal p.intDs : ℚ) + (digitsVal p.fracDs : ℚ) / ((10 : ℚ) ^ p.fracDs.length)) *
    (10 : ℚ) ^ p.exp

/-- Model of JS `parseFloat`; `none` models NaN. -/
def jsParseFloat (s : String) : Option ℚ := (parseFloatLex s).map floatVal

/-- Model of JS `Math.round`: round half toward positive infinity. -/
def jsRound (q : ℚ) : ℤ := (q + 1 / 2).floor

/-! ## Data model -/

/-- YNAB cleared state (spec section 3, TargetTransaction.clearedState;
YNAB additionally has a reconciled state the engine never produces). -/
inductive ClearedState
  | uncleared
  | cleared
  | reconciled
deriving DecidableEq

/-- A source-ledger transaction as the worker reads it (the
`TransactionResource` fields the engine touches).  Every field reached
through the optional chain `upTx.attributes?.x` is an `Option`;
`amount` stands for `attributes?.amount?.value`. -/
structure UpTx where
  id : String
  status : Option String
  amount : Option String
  description : Option String
  message : Option String
  settledAt : Option String
  createdAt : Option String
deriving DecidableEq

/-- The object handed to the YNAB batched create (the literal built in
`syncToYNAB`, src/src/index.ts lines 580 to 589, and the restoration
literal, src/src/up_types.ts lines 1515 to 1526).  `amount = none`
models a NaN amount. -/
structure YnabSaveTx where
  account_id : String
  date : String
  amount : Option ℤ
  payee_name : String
  memo : Option String
  cleared : ClearedState
  approved : Bool
  import_id : Option String
deriving DecidableEq

/-- One entry of the batched cleared-state update. -/
structure UpdateEntry where
  id : String
  cleared : ClearedState
deriving DecidableEq

/-- A transaction stored in the target ledger.  Modelled from the spec:
TargetTransaction, spec section 3. -/
structure YnabTx where
  id : String
  account_id : String
  date : String
  amount : Option ℤ
  payee_name : Option String
  memo : Option String
  cleared : ClearedState
  approved : Bool
  import_id : Option String
  deleted : Bool
deriving DecidableEq

/-- A mutating call received by the target ledger. -/
inductive MutCall
  | create (entries : List YnabSaveTx)
  | update (entries : List UpdateEntry)
  | delete (id : String)
deriving DecidableEq

/-- Target-ledger state: stored transactions, a counter for fresh
target-assigned ids, and the log of mutating calls received.  Modelled
from the spec: sections 3 and 4.4 (the target ledger is an external
service; this is its interface contract). -/
structure Ledger where
  txs : List YnabTx
  nextId : ℕ
  calls : List MutCall
deriving DecidableEq

/-! ## The transaction mapper -/

/-- The idempotency key: `UPBANK:` plus the Up transaction id, truncated
to 36 characters (src/src/index.ts line 555; src/src/up_types.ts
lines 1278 and 1455). -/
def mkImportId (upId : String) : String := jsSubstring ("UPBANK:" ++ upId) 36

/-- Cleared-state mapping of the incremental sync path (src/src/index.ts
lines 558 to 563): HELD gives Uncleared, SETTLED gives Cleared, anything
else defaults to Uncleared. -/
def syncCleared (status : Option String) : ClearedState :=
  if status == some "HELD" then .uncleared
  else if status == some "SETTLED" then .cleared
  else .uncleared

/-- Whether the sync path logs the unexpected-status warning
(src/src/index.ts lines 576 to 578). -/
def statusWarns (status : Option String) : Bool :=
  !(status == some "HELD") && !(status == some "SETTLED")

/-- Cleared-state mapping of the restoration path (src/src/up_types.ts
lines 1521 to 1523): HELD gives Uncleared and anything else, SETTLED or
not, gives Cleared. -/
def restoreCleared (status : Option String) : ClearedState :=
  if status == some "HELD" then .uncleared else .cleared

/-- The transaction date string: `settledAt || createdAt || now`, first
ten characters (src/src/index.ts lines 552 and 582). -/
def txDate (u : UpTx) (now : String) : String :=
  jsSubstring (jsOr u.settledAt (jsOr u.createdAt now)) 10

/-- The memo: `message || undefined`. -/
def memoOf (u : UpTx) : Option String :=
  match u.message with
  | some m => if m == "" then none else some m
  | none => none

/-- Milliunit amount: `Math.round(parseFloat(amount?.value || "0") * 1000)`
(src/src/index.ts line 549); `none` is NaN. -/
def amountMilli (u : UpTx) : Option ℤ :=
  (jsParseFloat (jsOr u.amount "0")).map (fun q => jsRound (q * 1000))

/-- The mapper of the incremental sync path (src/src/index.ts
lines 547 to 590). -/
def mapUpToYnab (accountId now : String) (u : UpTx) : YnabSaveTx :=
  { account_id := accountId
    date := txDate u now
    amount := amountMilli u
    payee_name := jsOr u.description "Unknown"
    memo := memoOf u
    cleared := syncCleared u.status
    approved := false
    import_id := some (mkImportId u.id) }

/-- The mapper of the restoration path (src/src/up_types.ts lines 1515 to
1526): identical except for the cleared-state rule and the deliberately
omitted import id. -/
def mapUpToYnabRestore (accountId now : String) (u : UpTx) : YnabSaveTx :=
  { account_id := accountId
    date := txDate u now
    amount := amountMilli u
    payee_name := jsOr u.description "Unknown"
    memo := memoOf u
    cleared := restoreCleared u.status
    approved := false
    import_id := none }

/-! ## Target-ledger operations

Modelled from the spec: the target ledger is an external service, so its
create, read, update and delete behaviour follows the interface contracts
of spec sections 3, 4.2 and 4.4.  Mutating calls are logged in the
ledger's call log; a call with `ok = false` models a remote failure with
no effect beyond having been issued. -/

/-- Modelled from the spec: `getTransactionsByAccount` returns the
account's non-deleted transactions (spec sections 4.3 step 1 and 4.4). -/
def Ledger.byAccount (st : Ledger) (accountId : String) : List YnabTx :=
  st.txs.filter (fun t => t.account_id == accountId && !t.deleted)

/-- Fresh target-assigned transaction id. -/
def freshId (n : ℕ) : String := "ynab-tx-" ++ toString n

/-- Modelled from the spec: whether a batch entry collides with an
existing non-deleted transaction holding the same import id (spec
section 3's uniqueness invariant, the duplicate-suppression mechanism of
section 4.2 step 3). -/
def isDupIn (txs : List YnabTx) (e : YnabSaveTx) : Bool :=
  match e.import_id with
  | some k => txs.any (fun t => !t.deleted && t.import_id == some k)
  | none => false

/-- Stores a batch entry as a fresh transaction. -/
def saveToTx (n : ℕ) (e : YnabSaveTx) : YnabTx :=
  { id := freshId n, account_id := e.account_id, date := e.date,
    amount := e.amount, payee_name := some e.payee_name, memo := e.memo,
    cleared := e.cleared, approved := e.approved, import_id := e.import_id,
    deleted := false }

/-- Modelled from the spec: the batched create (spec section 4.2 step 3
and section 4.4).  Entries are taken in order; one whose import id
already exists on a non-deleted transaction is skipped and reported in
the duplicate list, any other is stored under a fresh id. -/
def createGo : Ledger → List YnabSaveTx → Ledger × List String
  | st, [] => (st, [])
  | st, e :: es =>
    if isDupIn st.txs e then
      ((createGo st es).1, (e.import_id.getD "") :: (createGo st es).2)
    else
      createGo { st with txs := st.txs ++ [saveToTx st.nextId e], nextId := st.nextId + 1 } es

/-- The batched create call: logged, then processed. -/
def apiCreate (st : Ledger) (es : List YnabSaveTx) : Ledger × List String :=
  createGo { st with calls := st.calls ++ [.create es] } es

/-- Modelled from the spec: the batched cleared-state update (spec
section 4.4) applied to the stored transactions. -/
def updateGo (us : List UpdateEntry) (txs : List YnabTx) : List YnabTx :=
  txs.map (fun t =>
    match us.find? (fun u => u.id == t.id) with
    | some u => { t with cleared := u.cleared }
    | none => t)

/-- The batched update call: logged, then processed. -/
def apiUpdate (st : Ledger) (us : List UpdateEntry) : Ledger :=
  { txs := updateGo us st.txs, nextId := st.nextId, calls := st.calls ++ [.update us] }

/-- Modelled from the spec: the single soft delete by target id (spec
section 4.4); `ok = false` models the call failing with no effect. -/
def apiDelete (st : Ledger) (ok : Bool) (txId : String) : Ledger :=
  let st₁ : Ledger := { st with calls := st.calls ++ [.delete txId] }
  if ok then
    { st₁ with txs := st₁.txs.map (fun t => if t.id == txId then { t with deleted := true } else t) }
  else st₁

/-! ## The incremental sync: syncToYNAB -/

/-- The per-account sync result (src/src/index.ts `AccountSyncResult`). -/
structure SyncResult where
  imported : ℕ
  duplicates : ℕ
  total : ℕ
deriving DecidableEq

/-- Which of the three YNAB calls of one `syncToYNAB` invocation succeed:
the batched create, the by-account lookup of step 5, and the batched
update of step 5. -/
structure SyncOracle where
  createOk : Bool
  lookupOk : Bool
  updateOk : Bool
deriving DecidableEq

/-- A JS `Map` built from key-value pairs: a later pair overwrites an
earlier one, so lookup returns the value of the last matching pair. -/
def mapGet (ps : List (String × ClearedState)) (k : String) : Option ClearedState :=
  (ps.reverse.find? (fun p => p.1 == k)).map (fun p => p.2)

/-- The `desiredClearedStatus` map of syncToYNAB (src/src/index.ts
lines 636 to 640): the batch entries whose import id was reported
duplicate, keyed by import id. -/
def desiredPairs (es : List YnabSaveTx) (dups : List String) : List (String × ClearedState) :=
  (es.filter (fun e => dups.contains (e.import_id.getD ""))).map
    (fun e => (e.import_id.getD "", e.cleared))

/-- The update list of syncToYNAB step 5 (src/src/index.ts lines 651 to
659): existing transactions whose import id has a desired cleared state
different from their current one. -/
def mkUpdates (existing : List YnabTx) (desired : List (String × ClearedState)) : List UpdateEntry :=
  (existing.filter (fun t =>
      match mapGet desired (t.import_id.getD "") with
      | some d => !(t.cleared == d)
      | none => false)).map
    (fun t => { id := t.id, cleared := (mapGet desired (t.import_id.getD "")).getD .uncleared })

/-- syncToYNAB (src/src/index.ts lines 538 to 707): map the fetched
source transactions, return zeros without any call when the list is
empty, batch-create, then run the best-effort duplicate cleared-state
fix-up whose failure is swallowed.  A create failure propagates. -/
def syncToYNAB (o : SyncOracle) (accountId now : String) (ups : List UpTx) (st : Ledger) :
    Except Unit (Ledger × SyncResult) :=
  let es := ups.map (mapUpToYnab accountId now)
  if es.isEmpty then .ok (st, ⟨0, 0, 0⟩)
  else if !o.createOk then .error ()
  else
    let r := apiCreate st es
    let res : SyncResult := ⟨es.length - r.2.length, r.2.length, es.length⟩
    if r.2.length == 0 then .ok (r.1, res)
    else if !o.lookupOk then .ok (r.1, res)
    else
      let toUp := mkUpdates (r.1.byAccount accountId) (desiredPairs es r.2)
      if toUp.isEmpty then .ok (r.1, res)
      else if !o.updateOk then .ok (r.1, res)
      else .ok (apiUpdate r.1 toUp, res)

/-- The fetch step feeding a sync (fetchUpTransactionsByAccount,
src/src/index.ts lines 485 to 533, rethrows any page failure before
`syncToYNAB` runs), so a fetch failure propagates to the caller. -/
def syncAccountOnce (fetchOk : Bool) (o : SyncOracle) (accountId now : String)
    (fetched : List UpTx) (st : Ledger) : Except Unit (Ledger × SyncResult) :=
  if fetchOk then syncToYNAB o accountId now fetched st else .error ()

/-! ## deleteFromYNAB -/

/-- deleteFromYNAB's account walk (src/src/up_types.ts lines 1283 to
1305): visit the mapped YNAB accounts in mapping order; in the first
account whose listing contains a transaction with the derived import id,
delete it and stop.  A listing or delete failure for one account is
caught and the search continues with the next account. -/
def deleteGo (listOk delOk : String → Bool) (key : String) :
    List (String × String) → Ledger → Ledger × Bool × Bool
  | [], st => (st, false, true)
  | (_, y) :: rest, st =>
    if listOk y then
      match (st.byAccount y).find? (fun t => t.import_id == some key) with
      | some t =>
        if delOk t.id then (apiDelete st true t.id, true, false)
        else deleteGo listOk delOk key rest (apiDelete st false t.id)
      | none => deleteGo listOk delOk key rest st
    else deleteGo listOk delOk key rest st

/-- deleteFromYNAB (src/src/up_types.ts lines 1271 to 1309): derive
the import id from the Up transaction id, then search and delete; the
pair of booleans is `(deleted, notFound)`. -/
def deleteFromYNAB (listOk delOk : String → Bool) (mapping : List (String × String))
    (upTxId : String) (st : Ledger) : Ledger × Bool × Bool :=
  deleteGo listOk delOk (mkImportId upTxId) mapping st

/-! ## performResyncAll -/

/-- A collected target transaction of step 1 (the five fields retained in
src/src/up_types.ts lines 1365 to 1371). -/
structure CollectedTx where
  id : String
  import_id : String
  payee_name : String
  amount : Option ℤ
  date : String
deriving DecidableEq

/-- An orphan report entry (src/src/up_types.ts lines 1311 to 1317);
`amount` is the milliunit amount divided by 1000. -/
structure OrphanedTx where
  ynabId : String
  upId : String
  payee : String
  amount : Option ℚ
  date : String
deriving DecidableEq

/-- A restoration report entry (src/src/up_types.ts lines 1319 to 1324). -/
structure RestoredTx where
  upId : String
  payee : String
  amount : Option ℚ
  date : String
deriving DecidableEq

/-- The reconciliation report (src/src/up_types.ts `ResyncAllResult`,
without the cosmetic message and per-account echo fields). -/
structure ResyncResult where
  dryRun : Bool
  earliestDate : Option String
  imported : ℕ
  duplicates : ℕ
  total : ℕ
  orphanedDeleted : ℕ
  orphanedTransactions : List OrphanedTx
  restoredCount : ℕ
  restoredTransactions : List RestoredTx
deriving DecidableEq

/-- Which remote calls of one reconciliation pass succeed: the step 1
by-account listings (keyed by YNAB account), the per-orphan deletes
(keyed by target id), the per-group restoration creates (keyed by YNAB
account) and the calls of each final per-account sync. -/
structure ResyncOracle where
  listOk : String → Bool
  deleteOk : String → Bool
  restoreOk : String → Bool
  sync : String → SyncOracle

/-- Whether a listed transaction is collected by step 1:
`tx.import_id?.startsWith("UPBANK:") && !tx.deleted`
(src/src/up_types.ts line 1364). -/
def isUpbankActive (t : YnabTx) : Bool :=
  match t.import_id with
  | some i => jsStartsWith i "UPBANK:" && !t.deleted
  | none => false

/-- The projection of step 1 (src/src/up_types.ts lines 1365 to 1371). -/
def collectTx (t : YnabTx) : CollectedTx :=
  { id := t.id
    import_id := t.import_id.getD ""
    payee_name := jsOr t.payee_name "Unknown"
    amount := t.amount
    date := t.date }

/-- JS `Map.set`: overwrite an existing key in place, else append. -/
def mapSet (m : List (String × List CollectedTx)) (k : String) (v : List CollectedTx) :
    List (String × List CollectedTx) :=
  if m.any (fun p => p.1 == k) then m.map (fun p => if p.1 == k then (k, v) else p)
  else m ++ [(k, v)]

/-- The earliest non-deleted date of a listing, folded into the running
minimum as in src/src/up_types.ts lines 1375 to 1379. -/
def minDate (acc : Option String) (txs : List YnabTx) : Option String :=
  txs.foldl (fun a t =>
    if !t.deleted && (a.isNone || decide (t.date < a.getD "")) then some t.date else a) acc

/-- Step 1 of performResyncAll (src/src/up_types.ts lines 1359 to 1380):
list every mapped YNAB account, collect its prefixed non-deleted
transactions into the by-account map, and track the earliest non-deleted
date.  A listing failure is fatal to the whole pass. -/
def collectStep (listOk : String → Bool) (st : Ledger) :
    List (String × String) → List (String × List CollectedTx) × Option String →
    Except Unit (List (String × List CollectedTx) × Option String)
  | [], acc => .ok acc
  | (_, y) :: rest, acc =>
    if listOk y then
      let listed := st.byAccount y
      let ups := (listed.filter isUpbankActive).map collectTx
      collectStep listOk st rest (mapSet acc.1 y ups, minDate acc.2 listed)
    else .error ()

/-- Insertion into a JS `Set` kept as an insertion-ordered duplicate-free
list. -/
def setInsert (l : List String) (s : String) : List String :=
  if l.contains s then l else l ++ [s]

/-- Step 2 (src/src/up_types.ts lines 1409 to 1421): partition the
prefixed import ids of the full history, deleted versus active. -/
def deletedActiveSets (txs : List YnabTx) : List String × List String :=
  txs.foldl (fun (acc : List String × List String) t =>
    match t.import_id with
    | some i =>
      if jsStartsWith i "UPBANK:" then
        if t.deleted then (setInsert acc.1 i, acc.2) else (acc.1, setInsert acc.2 i)
      else acc
    | none => acc) ([], [])

/-- The restorable set: deleted minus active (src/src/up_types.ts
lines 1425 to 1427). -/
def restorableOf (txs : List YnabTx) : List String :=
  ((deletedActiveSets txs).1).filter (fun i => !(deletedActiveSets txs).2.contains i)

/-- One iteration of the step 3 scan: record the truncated source id,
and queue the transaction for restoration when its full key is
restorable. -/
def scanStep (restorable : List String) (y : String)
    (a : List String × List (UpTx × String)) (tx : UpTx) :
    List String × List (UpTx × String) :=
  let ids₁ := setInsert a.1 (jsSubstring tx.id 29)
  if restorable.contains (mkImportId tx.id) then (ids₁, a.2 ++ [(tx, y)])
  else (ids₁, a.2)

/-- Step 3 (src/src/up_types.ts lines 1443 to 1460): one pass per mapping
over the re-fetched source transactions, accumulating the truncated-id
set and the restoration queue. -/
def sourceScan (fetchUp : String → String → List UpTx) (earliest : String)
    (restorable : List String) :
    List (String × String) → List String × List (UpTx × String) →
    List String × List (UpTx × String)
  | [], acc => acc
  | (u, y) :: rest, acc =>
    sourceScan fetchUp earliest restorable rest
      ((fetchUp u earliest).foldl (scanStep restorable y) acc)

/-- The orphan report record built from a collected transaction
(src/src/up_types.ts lines 1473 to 1479). -/
def mkOrphan (c : CollectedTx) : OrphanedTx :=
  { ynabId := c.id
    upId := jsReplaceFirst c.import_id "UPBANK:"
    payee := c.payee_name
    amount := c.amount.map (fun a => (a : ℚ) / 1000)
    date := c.date }

/-- Step 4 (src/src/up_types.ts lines 1466 to 1482): a collected
transaction whose stripped import id is absent from the truncated source
id set is orphaned. -/
def findOrphans (ids : List String) (m : List (String × List CollectedTx)) : List OrphanedTx :=
  m.foldl (fun acc p =>
    acc ++ (p.2.filter
      (fun c => !ids.contains (jsReplaceFirst c.import_id "UPBANK:"))).map mkOrphan) []

/-- Step 5a (src/src/up_types.ts lines 1486 to 1498): delete the orphans
one at a time, best effort; the count is of successful deletes only. -/
def deleteOrphans (delOk : String → Bool) : List OrphanedTx → Ledger → Ledger × ℕ
  | [], st => (st, 0)
  | o :: os, st =>
    if delOk o.ynabId then
      let r := deleteOrphans delOk os (apiDelete st true o.ynabId)
      (r.1, r.2 + 1)
    else deleteOrphans delOk os (apiDelete st false o.ynabId)

/-- The restoration report record (src/src/up_types.ts lines 1533 to
1539 and 1548 to 1554); its amount is the raw parsed float and its date
falls back to the empty string, unlike the mapper's. -/
def mkRestored (u : UpTx) : RestoredTx :=
  { upId := u.id
    payee := jsOr u.description "Unknown"
    amount := jsParseFloat (jsOr u.amount "0")
    date := jsSubstring (jsOr u.settledAt (jsOr u.createdAt "")) 10 }

/-- The `byAccount` grouping Map of the restoration phase
(src/src/up_types.ts lines 1507 to 1512): push onto the existing bucket
or start a new one. -/
def bucketPush (m : List (String × List UpTx)) (k : String) (v : UpTx) :
    List (String × List UpTx) :=
  if m.any (fun p => p.1 == k) then m.map (fun p => if p.1 == k then (p.1, p.2 ++ [v]) else p)
  else m ++ [(k, [v])]

/-- Groups the restoration queue by mapped YNAB account. -/
def groupByAccount (toRes : List (UpTx × String)) : List (String × List UpTx) :=
  toRes.foldl (fun m p => bucketPush m p.2 p.1) []

/-- Step 5b (src/src/up_types.ts lines 1504 to 1545): batch-create each
account group without import ids; a failed group is skipped and neither
counted nor reported as restored. -/
def restoreGroups (resOk : String → Bool) (now : String) :
    List (String × List UpTx) → Ledger → Ledger × ℕ × List RestoredTx
  | [], st => (st, 0, [])
  | (y, us) :: rest, st =>
    if resOk y then
      let r := restoreGroups resOk now rest (apiCreate st (us.map (mapUpToYnabRestore y now))).1
      (r.1, us.length + r.2.1, us.map mkRestored ++ r.2.2)
    else restoreGroups resOk now rest st

/-- Step 6 (src/src/up_types.ts lines 1564 to 1590): re-run the
incremental sync for every mapping from the earliest date, accumulating
the totals; a sync failure propagates. -/
def syncAll (o : ResyncOracle) (fetchUp : String → String → List UpTx) (now earliest : String) :
    List (String × String) → Ledger → Except Unit (Ledger × ℕ × ℕ × ℕ)
  | [], st => .ok (st, 0, 0, 0)
  | (u, y) :: rest, st => do
    let r ← syncToYNAB (o.sync y) y now (fetchUp u earliest) st
    let rest₁ ← syncAll o fetchUp now earliest rest r.1
    .ok (rest₁.1, r.2.imported + rest₁.2.1, r.2.duplicates + rest₁.2.2.1, r.2.total + rest₁.2.2.2)

/-- performResyncAll (src/src/up_types.ts lines 1348 to 1618): collect
and classify, then, unless a dry run, delete orphans, restore, and
resync every mapping from the earliest date. -/
def performResyncAll (o : ResyncOracle) (mapping : List (String × String))
    (fetchUp : String → String → List UpTx) (now : String) (dryRun : Bool)
    (st : Ledger) : Except Unit (Ledger × ResyncResult) := do
  let c ← collectStep o.listOk st mapping ([], none)
  match c.2 with
  | none =>
    .ok (st, { dryRun := dryRun, earliestDate := none, imported := 0, duplicates := 0,
               total := 0, orphanedDeleted := 0, orphanedTransactions := [],
               restoredCount := 0, restoredTransactions := [] })
  | some earliest =>
    let scan := sourceScan fetchUp earliest (restorableOf st.txs) mapping ([], [])
    let orphans := findOrphans scan.1 c.1
    let del :=
      if !dryRun && !orphans.isEmpty then deleteOrphans o.deleteOk orphans st else (st, 0)
    let res :=
      if !dryRun && !scan.2.isEmpty then
        restoreGroups o.restoreOk now (groupByAccount scan.2) del.1
      else if !scan.2.isEmpty then (del.1, 0, scan.2.map (fun p => mkRestored p.1))
      else (del.1, 0, [])
    let fin ← if dryRun then Except.ok (res.1, 0, 0, 0)
              else syncAll o fetchUp now earliest mapping res.1
    .ok (fin.1, { dryRun := dryRun, earliestDate := some earliest,
                  imported := fin.2.1, duplicates := fin.2.2.1, total := fin.2.2.2,
                  orphanedDeleted := del.2, orphanedTransactions := orphans,
                  restoredCount := res.2.1, restoredTransactions := res.2.2 })

/-! ## String lemmas -/

theorem data_append (s t : String) : (s ++ t).data = s.data ++ t.data := rfl

theorem length_mk (l : List Char) : (String.mk l).length = l.length := rfl

theorem jsSubstring_data (s : String) (n : Nat) : (jsSubstring s n).data = s.data.take n := rfl

/-- The derived key splits into the intact prefix and the id truncated to
29 characters. -/
theorem mkImportId_split (upId : String) :
    mkImportId upId = "UPBANK:" ++ jsSubstring upId 29 := by
  apply String.ext
  show (("UPBANK:" ++ upId).data.take 36) = ("UPBANK:" ++ jsSubstring upId 29).data
  rw [data_append, data_append, jsSubstring_data, List.take_append_eq_append_take]
  norm_num [List.take_of_length_le, String.data]

theorem mkImportId_length (upId : String) : (mkImportId upId).length ≤ 36 := by
  show (("UPBANK:" ++ upId).data.take 36).length ≤ 36
  rw [List.length_take]
  omega

/-- `hasPre` really is the list-prefix test. -/
theorem hasPre_iff (pat s : List Char) : hasPre pat s = true ↔ pat <+: s := by
  induction pat generalizing s with
  | nil => simp [hasPre]
  | cons p ps ih =>
    cases s with
    | nil => simp [hasPre]
    | cons c cs =>
      simp only [hasPre, Bool.and_eq_true, beq_iff_eq, List.cons_prefix_cons, ih]

/-- Removing a pattern that sits at the front drops exactly the pattern. -/
theorem removeFirstAux_of_pre (pat s : List Char) (h : pat <+: s) :
    removeFirstAux pat s = s.drop pat.length := by
  cases s with
  | nil =>
    simp only [List.prefix_nil] at h
    simp [removeFirstAux, h]
  | cons c cs =>
    have hp : hasPre pat (c :: cs) = true := (hasPre_iff pat (c :: cs)).mpr h
    simp [removeFirstAux, hp]

/-- Stripping the prefix off a derived key recovers the truncated id. -/
theorem jsReplaceFirst_mkImportId (upId : String) :
    jsReplaceFirst (mkImportId upId) "UPBANK:" = jsSubstring upId 29 := by
  rw [mkImportId_split]
  apply String.ext
  show removeFirstAux ("UPBANK:".data) (("UPBANK:" ++ jsSubstring upId 29).data) = _
  rw [data_append, removeFirstAux_of_pre _ _ (List.prefix_append _ _)]
  simp [String.data]

/-! ## Claim C5 -/

/-- Claim C5: the idempotency key of a source transaction id is the fixed
prefix `UPBANK:` concatenated with the id and truncated to 36 characters;
it is a pure function of the id, so equal ids give byte-identical keys,
and it never exceeds 36 characters. -/
theorem importId_deterministic_bounded (upId : String) :
    mkImportId upId = jsSubstring ("UPBANK:" ++ upId) 36 ∧
    mkImportId upId = "UPBANK:" ++ jsSubstring upId 29 ∧
    (mkImportId upId).length ≤ 36 :=
  ⟨rfl, mkImportId_split upId, mkImportId_length upId⟩

/-! ## Claims C6 and C7: the mapper's amount and cleared-state rules -/

/-- A source transaction whose amount string is malformed (non-numeric
and non-empty). -/
def malformedTx : UpTx :=
  { id := "tx-1"
    status := some "SETTLED"
    amount := some "abc"
    description := some "Shop"
    message := none
    settledAt := some "2024-05-01T10:00:00+10:00"
    createdAt := some "2024-04-30T09:00:00+10:00" }

/-- Claim C6 counterexample: mapping a transaction whose amount string is
the malformed non-empty string "abc" does not parse it to 0 — `parseFloat`
yields NaN (modelled `none`) and so does the mapped amount, because the
`|| "0"` fallback only fires for a missing or empty string. -/
theorem malformed_amount_is_nan_not_zero :
    (mapUpToYnab "acc-1" "2024-05-02T00:00:00Z" malformedTx).amount = none ∧
    (mapUpToYnab "acc-1" "2024-05-02T00:00:00Z" malformedTx).amount ≠ some 0 := by
  decide

/-- Claim C6 amended: the mapper is total — it produces a create entry
for every source transaction — and a missing or empty amount string
parses to 0, making the milliunit amount round(0 times 1000) = 0; but a
malformed non-empty amount string such as "abc" parses to NaN and yields
a NaN milliunit amount instead of 0. -/
theorem mapper_total_amount_default (acc now : String) (u : UpTx) :
    (u.amount = none → (mapUpToYnab acc now u).amount = some 0) ∧
    (u.amount = some "" → (mapUpToYnab acc now u).amount = some 0) ∧
    (u.amount = some "abc" → (mapUpToYnab acc now u).amount = none) := by
  have hz : jsParseFloat "0" = some 0 := by
    have h : parseFloatLex "0" = some ⟨false, ['0'], [], 0⟩ := by decide
    have d : digitsVal ['0'] = 0 := by decide
    simp [jsParseFloat, h, floatVal, d, digitsVal]
  have hr : jsRound (0 * 1000) = 0 := by
    show ((0 : ℚ) * 1000 + 1 / 2).floor = 0
    rw [Rat.floor_def']
    norm_num
  have habc : parseFloatLex "abc" = none := by decide
  have hz' : (jsParseFloat "0").map (fun q => jsRound (q * 1000)) = some 0 := by
    rw [hz]; simpa using hr
  refine ⟨fun h => ?_, fun h => ?_, fun h => ?_⟩ <;>
  · show amountMilli u = _
    unfold amountMilli jsOr
    rw [h]
    first
    | exact hz'
    | simp [jsParseFloat, habc]

/-- Witness for the amended claim C6 at concrete inputs. -/
theorem mapper_total_amount_default_witness :
    (mapUpToYnab "acc-1" "t" { malformedTx with amount := none }).amount = some 0 ∧
    (mapUpToYnab "acc-1" "t" { malformedTx with amount := some "" }).amount = some 0 ∧
    (mapUpToYnab "acc-1" "t" malformedTx).amount = none :=
  ⟨(mapper_total_amount_default "acc-1" "t" { malformedTx with amount := none }).1 rfl,
   (mapper_total_amount_default "acc-1" "t" { malformedTx with amount := some "" }).2.1 rfl,
   (mapper_total_amount_default "acc-1" "t" malformedTx).2.2 rfl⟩

/-- Claim C7 counterexample: in the restoration path an unrecognized
status value maps to Cleared, not to Uncleared as the claim states —
`status === "HELD" ? Uncleared : Cleared` has no SETTLED test. -/
theorem restore_unknown_status_not_uncleared :
    (mapUpToYnabRestore "acc-1" "t" { malformedTx with status := some "FOO" }).cleared =
      ClearedState.cleared ∧
    ClearedState.cleared ≠ ClearedState.uncleared := by
  decide

/-- Claim C7 amended: in the incremental sync path, Held maps to
Uncleared, Settled to Cleared and any unrecognized status to Uncleared
with the warning reported, never failing the run; in the restoration
path, Held maps to Uncleared but any other status — Settled or
unrecognized — maps to Cleared, with no warning. -/
theorem cleared_state_mapping (acc now : String) (u : UpTx) :
    (u.status = some "HELD" →
      (mapUpToYnab acc now u).cleared = .uncleared ∧
      (mapUpToYnabRestore acc now u).cleared = .uncleared ∧ statusWarns u.status = false) ∧
    (u.status = some "SETTLED" →
      (mapUpToYnab acc now u).cleared = .cleared ∧
      (mapUpToYnabRestore acc now u).cleared = .cleared ∧ statusWarns u.status = false) ∧
    (u.status ≠ some "HELD" → u.status ≠ some "SETTLED" →
      (mapUpToYnab acc now u).cleared = .uncleared ∧
      (mapUpToYnabRestore acc now u).cleared = .cleared ∧ statusWarns u.status = true) := by
  refine ⟨fun h => ?_, fun h => ?_, fun h₁ h₂ => ?_⟩ <;>
    simp_all [mapUpToYnab, mapUpToYnabRestore, syncCleared, restoreCleared, statusWarns]

/-- Witness for the amended claim C7 at concrete inputs. -/
theorem cleared_state_mapping_witness :
    (mapUpToYnab "acc-1" "t" { malformedTx with status := some "HELD" }).cleared =
      ClearedState.uncleared ∧
    (mapUpToYnab "acc-1" "t" malformedTx).cleared = ClearedState.cleared ∧
    (mapUpToYnabRestore "acc-1" "t" { malformedTx with status := some "FOO" }).cleared =
      ClearedState.cleared :=
  ⟨((cleared_state_mapping "acc-1" "t" { malformedTx with status := some "HELD" }).1 rfl).1,
   ((cleared_state_mapping "acc-1" "t" malformedTx).2.1 rfl).1,
   ((cleared_state_mapping "acc-1" "t" { malformedTx with status := some "FOO" }).2.2
      (by decide) (by decide)).2.1⟩

/-! ## Lemmas about the batched create -/

/-- The batched create only appends: existing transactions survive
untouched, the id counter never decreases, the call log is untouched by
the processing itself, and every appended transaction is a stored batch
entry under a fresh id. -/
theorem createGo_txs (es : List YnabSaveTx) : ∀ st : Ledger, ∃ new,
    (createGo st es).1.txs = st.txs ++ new ∧
    st.nextId ≤ (createGo st es).1.nextId ∧
    (createGo st es).1.calls = st.calls ∧
    ∀ t ∈ new, t.deleted = false ∧ ∃ n e, st.nextId ≤ n ∧ e ∈ es ∧ t = saveToTx n e := by
  induction es with
  | nil =>
    intro st
    exact ⟨[], by simp [createGo], by simp [createGo], by simp [createGo], by simp⟩
  | cons e es ih =>
    intro st
    by_cases h : isDupIn st.txs e = true
    · obtain ⟨new, h₁, h₂, h₃, h₄⟩ := ih st
      refine ⟨new, by simpa [createGo, h] using h₁, by simpa [createGo, h] using h₂,
        by simpa [createGo, h] using h₃, fun t ht => ?_⟩
      obtain ⟨hd, n, e', hn, he', ht'⟩ := h₄ t ht
      exact ⟨hd, n, e', hn, List.mem_cons_of_mem _ he', ht'⟩
    · obtain ⟨new, h₁, h₂, h₃, h₄⟩ :=
        ih { st with txs := st.txs ++ [saveToTx st.nextId e], nextId := st.nextId + 1 }
      refine ⟨saveToTx st.nextId e :: new, ?_, ?_, ?_, fun t ht => ?_⟩
      · simp only [createGo, h, if_false, Bool.false_eq_true]
        rw [h₁]
        simp
      · simp only [createGo, h, if_false, Bool.false_eq_true]
        simp only at h₂
        omega
      · simpa [createGo, h] using h₃
      · rcases List.mem_cons.mp ht with rfl | ht'
        · exact ⟨rfl, st.nextId, e, le_refl _, List.mem_cons_self _ _, rfl⟩
        · obtain ⟨hd, n, e', hn, he', ht''⟩ := h₄ t ht'
          exact ⟨hd, n, e', by simp at hn; omega, List.mem_cons_of_mem _ he', ht''⟩

/-- When a non-deleted transaction already holds key `k`, the batched
create adds no transaction with key `k`: the active-key filter of the
store is unchanged. -/
theorem createGo_active_filter (es : List YnabSaveTx) (k : String) : ∀ st : Ledger,
    (∃ a ∈ st.txs, a.deleted = false ∧ a.import_id = some k) →
    (createGo st es).1.txs.filter (fun t => !t.deleted && t.import_id == some k) =
      st.txs.filter (fun t => !t.deleted && t.import_id == some k) := by
  induction es with
  | nil => intro st _; simp [createGo]
  | cons e es ih =>
    intro st hex
    by_cases h : isDupIn st.txs e = true
    · simpa [createGo, h] using ih st hex
    · have hek : e.import_id ≠ some k := by
        intro hk
        apply h
        obtain ⟨a, ha, had, hai⟩ := hex
        simp only [isDupIn, hk, List.any_eq_true]
        exact ⟨a, ha, by simp [had, hai]⟩
      simp only [createGo, h, if_false, Bool.false_eq_true]
      have hex' : ∃ a ∈ st.txs ++ [saveToTx st.nextId e], a.deleted = false ∧ a.import_id = some k := by
        obtain ⟨a, ha, h₁, h₂⟩ := hex
        exact ⟨a, List.mem_append_left _ ha, h₁, h₂⟩
      have hih := ih { st with txs := st.txs ++ [saveToTx st.nextId e], nextId := st.nextId + 1 } hex'
      simp only at hih
      rw [hih, List.filter_append]
      simp [saveToTx, hek]

/-- When a non-deleted transaction already holds key `k` and some batch
entry carries key `k`, the create reports `k` as a duplicate. -/
theorem createGo_dup_mem (es : List YnabSaveTx) (k : String) : ∀ st : Ledger,
    (∃ a ∈ st.txs, a.deleted = false ∧ a.import_id = some k) →
    (∃ e ∈ es, e.import_id = some k) → k ∈ (createGo st es).2 := by
  induction es with
  | nil =>
    intro st _ h
    simp at h
  | cons e es ih =>
    rintro st hex ⟨e', he', hk'⟩
    rcases List.mem_cons.mp he' with rfl | he''
    · have hd : isDupIn st.txs e' = true := by
        obtain ⟨a, ha, h₁, h₂⟩ := hex
        simp only [isDupIn, hk', List.any_eq_true]
        exact ⟨a, ha, by simp [h₁, h₂]⟩
      simp [createGo, hd, hk']
    · by_cases h : isDupIn st.txs e = true
      · simp only [createGo, h, if_true]
        exact List.mem_cons_of_mem _ (ih st hex ⟨e', he'', hk'⟩)
      · simp only [createGo, h, if_false, Bool.false_eq_true]
        apply ih _ _ ⟨e', he'', hk'⟩
        obtain ⟨a, ha, h₁, h₂⟩ := hex
        exact ⟨a, List.mem_append_left _ ha, h₁, h₂⟩

/-! ## Characterizing syncToYNAB -/

/-- The result syncToYNAB reports: computed from the batched create
alone, independent of the step 5 oracle flags. -/
def syncRes (A now : String) (ups : List UpTx) (st : Ledger) : SyncResult :=
  ⟨(ups.map (mapUpToYnab A now)).length - (apiCreate st (ups.map (mapUpToYnab A now))).2.length,
   (apiCreate st (ups.map (mapUpToYnab A now))).2.length,
   (ups.map (mapUpToYnab A now)).length⟩

/-- The ledger state syncToYNAB leaves behind, mirroring its branches. -/
def syncFinalState (o : SyncOracle) (A now : String) (ups : List UpTx) (st : Ledger) : Ledger :=
  let es := ups.map (mapUpToYnab A now)
  if es.isEmpty then st
  else
    let r := apiCreate st es
    if r.2.length == 0 then r.1
    else if !o.lookupOk then r.1
    else
      let toUp := mkUpdates (r.1.byAccount A) (desiredPairs es r.2)
      if toUp.isEmpty then r.1
      else if !o.updateOk then r.1
      else apiUpdate r.1 toUp

/-- With a successful create, syncToYNAB answers `.ok` with the result
computed from the batched create, whatever the step 5 flags say. -/
theorem syncToYNAB_eq (o : SyncOracle) (A now : String) (ups : List UpTx) (st : Ledger)
    (hc : o.createOk = true) :
    syncToYNAB o A now ups st = .ok (syncFinalState o A now ups st, syncRes A now ups st) := by
  unfold syncToYNAB syncFinalState syncRes
  rw [hc]
  by_cases h1 : (ups.map (mapUpToYnab A now)).isEmpty
  · have h1' : ups.map (mapUpToYnab A now) = [] := by simpa using h1
    simp [h1', apiCreate, createGo]
  · simp only [h1, if_false, Bool.not_true, Bool.false_eq_true]
    split <;> try rfl
    split <;> try rfl
    split <;> try rfl
    split <;> rfl

/-! ## Claim C9 -/

/-- Claim C9: with a successful batched create, syncToYNAB returns the
`(imported, duplicates, total)` result computed from that create whatever
happens in step 5 — the result does not depend on the step 5 lookup and
update flags, whose failures are swallowed — while a fetch failure or a
batched-create failure propagates as an error to the caller. -/
theorem sync_step5_best_effort (o : SyncOracle) (fetchOk : Bool) (A now : String)
    (ups : List UpTx) (st : Ledger) :
    (o.createOk = true → fetchOk = true →
      syncAccountOnce fetchOk o A now ups st =
        .ok (syncFinalState o A now ups st, syncRes A now ups st)) ∧
    (fetchOk = false → syncAccountOnce fetchOk o A now ups st = .error ()) ∧
    (o.createOk = false → ups ≠ [] → syncAccountOnce true o A now ups st = .error ()) := by
  refine ⟨fun hc hf => ?_, fun hf => ?_, fun hc hne => ?_⟩
  · simp [syncAccountOnce, hf, syncToYNAB_eq o A now ups st hc]
  · simp [syncAccountOnce, hf]
  · have hne' : (ups.map (mapUpToYnab A now)).isEmpty = false := by
      simp [List.isEmpty_iff, hne]
    simp [syncAccountOnce, syncToYNAB, hc, hne']

/-- Witness for claim C9 at a concrete input. -/
theorem sync_step5_best_effort_witness :
    syncAccountOnce true ⟨true, false, false⟩ "acc-1" "t" [malformedTx] ⟨[], 0, []⟩ =
      .ok (syncFinalState ⟨true, false, false⟩ "acc-1" "t" [malformedTx] ⟨[], 0, []⟩,
           ⟨1, 0, 1⟩) :=
  ((sync_step5_best_effort ⟨true, false, false⟩ true "acc-1" "t" [malformedTx]
      ⟨[], 0, []⟩).1 rfl rfl).trans
    (by rw [(by decide : syncRes "acc-1" "t" [malformedTx] ⟨[], 0, []⟩ = (⟨1, 0, 1⟩ : SyncResult))])

/-! ## Lemmas about step 5's map and update -/

/-- A JS-Map lookup answers `some v` as soon as a matching pair exists
and every matching pair carries `v`. -/
theorem mapGet_eq_some (ps : List (String × ClearedState)) (k : String) (v : ClearedState)
    (hex : ∃ p ∈ ps, p.1 = k) (hall : ∀ p ∈ ps, p.1 = k → p.2 = v) :
    mapGet ps k = some v := by
  unfold mapGet
  have hex' : ∃ p ∈ ps.reverse, (fun p : String × ClearedState => p.1 == k) p = true := by
    obtain ⟨p, hp, hk⟩ := hex
    exact ⟨p, List.mem_reverse.mpr hp, by simp [hk]⟩
  obtain ⟨p, hp⟩ := Option.isSome_iff_exists.mp (List.find?_isSome.mpr hex')
  rw [hp]
  have hmem := List.mem_reverse.mp (List.mem_of_find?_eq_some hp)
  have hkey : p.1 = k := by simpa using List.find?_some hp
  simp [hall p hmem hkey]

/-- The batched update rewrites only the cleared state: every updated
transaction comes from a stored one with the same identity fields. -/
theorem updateGo_mem_ex (us : List UpdateEntry) (txs : List YnabTx) (t' : YnabTx)
    (h : t' ∈ updateGo us txs) :
    ∃ t'' ∈ txs, t'.id = t''.id ∧ t'.deleted = t''.deleted ∧ t'.import_id = t''.import_id ∧
      ((us.find? (fun v => v.id == t''.id)).isSome →
        ∀ u, us.find? (fun v => v.id == t''.id) = some u → t' = { t'' with cleared := u.cleared }) := by
  obtain ⟨t'', ht'', rfl⟩ := List.mem_map.mp h
  refine ⟨t'', ht'', ?_, ?_, ?_, ?_⟩ <;>
    cases hf : us.find? (fun v => v.id == t''.id) <;> simp [hf]

/-- The batched update never changes how many non-deleted transactions
carry a given import id. -/
theorem updateGo_filter_length (us : List UpdateEntry) (k : String) : ∀ txs : List YnabTx,
    ((updateGo us txs).filter (fun x => !x.deleted && x.import_id == some k)).length =
      (txs.filter (fun x => !x.deleted && x.import_id == some k)).length := by
  intro txs
  induction txs with
  | nil => rfl
  | cons t ts ih =>
    have hstep : updateGo us (t :: ts) =
        (match us.find? (fun v => v.id == t.id) with
          | some u => { t with cleared := u.cleared }
          | none => t) :: updateGo us ts := rfl
    rw [hstep, List.filter_cons, List.filter_cons]
    have hpred : (!(match us.find? (fun v : UpdateEntry => v.id == t.id) with
          | some u => { t with cleared := u.cleared }
          | none => t).deleted &&
        (match us.find? (fun v : UpdateEntry => v.id == t.id) with
          | some u => { t with cleared := u.cleared }
          | none => t).import_id == some k) = (!t.deleted && t.import_id == some k) := by
      cases us.find? (fun v : UpdateEntry => v.id == t.id) <;> rfl
    rw [hpred]
    split <;> simp [ih]

/-! ## Claim C1 -/

/-- Fresh target ids never collide with a string that does not start
with the character `y`. -/
theorem freshId_ne_of_head (n : ℕ) (s : String) (h : s.data.head? ≠ some 'y') :
    freshId n ≠ s := by
  intro he
  apply h
  rw [← he]
  rfl

/-- Claim C1: take a target transaction `t` created Uncleared (while its
source was Held) and carrying the source's derived key; when the source
now reports Settled — along with every fetched transaction sharing its
truncated key — and sync runs over a window `ups` containing it, the
batched create reports the key as a duplicate, the sync updates the
existing target transaction's cleared state to Cleared, and no new
target transaction with that key is created. -/
theorem cleared_state_convergence
    (o : SyncOracle) (st : Ledger) (A now : String) (ups : List UpTx) (src : UpTx) (t : YnabTx)
    (hoc : o.createOk = true) (hol : o.lookupOk = true) (hou : o.updateOk = true)
    (hmem : src ∈ ups)
    (hall : ∀ u ∈ ups, mkImportId u.id = mkImportId src.id → u.status = some "SETTLED")
    (ht : t ∈ st.txs) (htd : t.deleted = false) (hta : t.account_id = A)
    (hti : t.import_id = some (mkImportId src.id)) (htc : t.cleared = .uncleared)
    (huniq : ∀ x ∈ st.txs, x.id = t.id → x = t)
    (hfresh : ∀ n, st.nextId ≤ n → freshId n ≠ t.id) :
    syncToYNAB o A now ups st = .ok (syncFinalState o A now ups st, syncRes A now ups st) ∧
    mkImportId src.id ∈ (apiCreate st (ups.map (mapUpToYnab A now))).2 ∧
    0 < (syncRes A now ups st).duplicates ∧
    (∀ x ∈ (syncFinalState o A now ups st).txs, x.id = t.id → x.cleared = .cleared) ∧
    ((syncFinalState o A now ups st).txs.filter
        (fun x => !x.deleted && x.import_id == some (mkImportId src.id))).length =
      (st.txs.filter (fun x => !x.deleted && x.import_id == some (mkImportId src.id))).length := by
  set k := mkImportId src.id with hk
  set es := ups.map (mapUpToYnab A now) with hes
  set stC : Ledger := { st with calls := st.calls ++ [.create es] } with hstC
  have hgoeq : apiCreate st es = createGo stC es := rfl
  have hexC : ∃ a ∈ stC.txs, a.deleted = false ∧ a.import_id = some k := ⟨t, ht, htd, hti⟩
  have hkey_es : ∃ e ∈ es, e.import_id = some k :=
    ⟨mapUpToYnab A now src, List.mem_map_of_mem _ hmem, rfl⟩
  have hdup : k ∈ (apiCreate st es).2 := by
    rw [hgoeq]; exact createGo_dup_mem es k stC hexC hkey_es
  have hesne : es.isEmpty = false := by
    rcases ups with _ | ⟨u, us⟩
    · cases hmem
    · rfl
  have hdlen : (apiCreate st es).2.length ≠ 0 := by
    intro h0
    rw [List.length_eq_zero] at h0
    rw [h0] at hdup
    cases hdup
  obtain ⟨new, hnew₁, hnew₂, hnew₃, hnew₄⟩ := createGo_txs es stC
  have huniq' : ∀ x ∈ (apiCreate st es).1.txs, x.id = t.id → x = t := by
    intro x hx hxid
    rw [hgoeq, hnew₁] at hx
    rcases List.mem_append.mp hx with hx₁ | hx₂
    · exact huniq x hx₁ hxid
    · obtain ⟨hdel, n, e, hn, he, rfl⟩ := hnew₄ x hx₂
      exact absurd hxid (hfresh n hn)
  have hstat : src.status = some "SETTLED" := hall src hmem rfl
  have hdes : mapGet (desiredPairs es (apiCreate st es).2) k = some .cleared := by
    apply mapGet_eq_some
    · refine ⟨(k, (mapUpToYnab A now src).cleared), List.mem_map.mpr
        ⟨mapUpToYnab A now src, List.mem_filter.mpr
          ⟨List.mem_map_of_mem _ hmem, ?_⟩, rfl⟩, rfl⟩
      simpa [mapUpToYnab] using List.elem_iff.mpr hdup
    · intro p hp hpk
      obtain ⟨e', he'f, rfl⟩ := List.mem_map.mp hp
      obtain ⟨u', hu', rfl⟩ := List.mem_map.mp (List.mem_filter.mp he'f).1
      have hkk : mkImportId u'.id = k := by simpa [mapUpToYnab] using hpk
      show (mapUpToYnab A now u').cleared = _
      simp [mapUpToYnab, syncCleared, hall u' hu' hkk]
  have htA : t ∈ (apiCreate st es).1.byAccount A := by
    apply List.mem_filter.mpr
    refine ⟨?_, by simp [hta, htd]⟩
    rw [hgoeq, hnew₁]
    exact List.mem_append_left _ ht
  have htfil : t ∈ ((apiCreate st es).1.byAccount A).filter
      (fun x => match mapGet (desiredPairs es (apiCreate st es).2) (x.import_id.getD "") with
        | some d => !(x.cleared == d)
        | none => false) := by
    apply List.mem_filter.mpr
    refine ⟨htA, ?_⟩
    rw [hti]
    simp only [Option.getD_some, hdes, htc]
    rfl
  have hut : (⟨t.id, (mapGet (desiredPairs es (apiCreate st es).2)
      (t.import_id.getD "")).getD .uncleared⟩ : UpdateEntry) ∈
      mkUpdates ((apiCreate st es).1.byAccount A) (desiredPairs es (apiCreate st es).2) :=
    List.mem_map.mpr ⟨t, htfil, rfl⟩
  set toUp := mkUpdates ((apiCreate st es).1.byAccount A) (desiredPairs es (apiCreate st es).2)
    with htoUp
  have hall_toUp : ∀ u ∈ toUp, u.id = t.id → u.cleared = .cleared := by
    intro u hu huid
    obtain ⟨c, hcf, rfl⟩ := List.mem_map.mp hu
    have hceq : c = t := by
      apply huniq' c _ huid
      exact (List.mem_filter.mp (List.mem_filter.mp hcf).1).1
    subst hceq
    rw [hti]
    simp [hdes]
  have hfind : ∃ u, toUp.find? (fun v => v.id == t.id) = some u := by
    apply Option.isSome_iff_exists.mp
    apply List.find?_isSome.mpr
    exact ⟨_, hut, by simp⟩
  have htoUpne : toUp.isEmpty = false := by
    rcases hemp : toUp with _ | _
    · rw [hemp] at hut; cases hut
    · rfl
  have h2 : ((apiCreate st es).2.length == 0) = false := by
    simpa using hdlen
  have hfs : syncFinalState o A now ups st = apiUpdate (apiCreate st es).1 toUp := by
    unfold syncFinalState
    rw [← hes]
    simp only [hesne, Bool.false_eq_true, if_false, h2, hol, hou, Bool.not_true, htoUpne,
      ← htoUp]
  refine ⟨syncToYNAB_eq o A now ups st hoc, hdup, Nat.pos_of_ne_zero hdlen, ?_, ?_⟩
  · intro x hx hxid
    rw [hfs] at hx
    obtain ⟨x', hx', hid, hdel, himp, hupd⟩ := updateGo_mem_ex toUp (apiCreate st es).1.txs x hx
    have hx't : x' = t := huniq' x' hx' (by rw [← hid, hxid])
    subst hx't
    obtain ⟨u, hu⟩ := hfind
    have := hupd (by rw [hu]; rfl) u hu
    rw [this]
    exact hall_toUp u (List.mem_of_find?_eq_some hu) (by simpa using List.find?_some hu)
  · rw [hfs]
    show ((updateGo toUp (apiCreate st es).1.txs).filter _).length = _
    rw [updateGo_filter_length toUp k (apiCreate st es).1.txs]
    rw [hgoeq, createGo_active_filter es k stC hexC]

/-- Witness for claim C1: a concrete settled source transaction whose
uncleared mirror is updated. -/
theorem cleared_state_convergence_witness :
    syncToYNAB ⟨true, true, true⟩ "y1" "t" [malformedTx]
        ⟨[⟨"t1", "y1", "2024-04-30", none, some "Shop", none, .uncleared, false,
           some "UPBANK:tx-1", false⟩], 0, []⟩ =
      .ok (syncFinalState ⟨true, true, true⟩ "y1" "t" [malformedTx]
             ⟨[⟨"t1", "y1", "2024-04-30", none, some "Shop", none, .uncleared, false,
                some "UPBANK:tx-1", false⟩], 0, []⟩,
           syncRes "y1" "t" [malformedTx]
             ⟨[⟨"t1", "y1", "2024-04-30", none, some "Shop", none, .uncleared, false,
                some "UPBANK:tx-1", false⟩], 0, []⟩) ∧
    mkImportId malformedTx.id ∈
      (apiCreate ⟨[⟨"t1", "y1", "2024-04-30", none, some "Shop", none, .uncleared, false,
          some "UPBANK:tx-1", false⟩], 0, []⟩ ([malformedTx].map (mapUpToYnab "y1" "t"))).2 := by
  have h := cleared_state_convergence ⟨true, true, true⟩
    ⟨[⟨"t1", "y1", "2024-04-30", none, some "Shop", none, .uncleared, false,
       some "UPBANK:tx-1", false⟩], 0, []⟩ "y1" "t" [malformedTx] malformedTx
    ⟨"t1", "y1", "2024-04-30", none, some "Shop", none, .uncleared, false,
     some "UPBANK:tx-1", false⟩
    rfl rfl rfl (by decide) (by decide) (by decide) rfl rfl (by decide) rfl (by decide)
    (fun n _ => freshId_ne_of_head n "t1" (by decide))
  exact ⟨h.1, h.2.1⟩

/-! ## Claim C10 -/

/-- Claim C10: with listings and deletes succeeding, the deletion handler
walks the mapped target accounts in mapping-iteration order; if some
mapped account holds a transaction with the derived key, it deletes
exactly the first matching transaction of the first such account — one
delete call — then stops and answers `(deleted, not notFound)`, even if
later accounts also contain matches; if no account holds a match, it
issues no call at all, leaves the ledger untouched and answers
`(not deleted, notFound)`. -/
theorem delete_at_most_one (listOk delOk : String → Bool) (mapping : List (String × String))
    (upTxId : String) (st : Ledger)
    (hl : ∀ y, listOk y = true) (hd : ∀ i, delOk i = true) :
    (∀ t, mapping.findSome? (fun p => (st.byAccount p.2).find?
        (fun x => x.import_id == some (mkImportId upTxId))) = some t →
      deleteFromYNAB listOk delOk mapping upTxId st = (apiDelete st true t.id, true, false) ∧
      (apiDelete st true t.id).calls = st.calls ++ [.delete t.id]) ∧
    (mapping.findSome? (fun p => (st.byAccount p.2).find?
        (fun x => x.import_id == some (mkImportId upTxId))) = none →
      deleteFromYNAB listOk delOk mapping upTxId st = (st, false, true)) := by
  unfold deleteFromYNAB
  induction mapping with
  | nil =>
    exact ⟨fun t h => by simp [List.findSome?] at h, fun _ => rfl⟩
  | cons p rest ih =>
    obtain ⟨u, y⟩ := p
    constructor
    · intro t hfs
      rw [List.findSome?_cons] at hfs
      cases hfind : (st.byAccount y).find?
          (fun x => x.import_id == some (mkImportId upTxId)) with
      | some t' =>
        rw [hfind] at hfs
        simp only [Option.some.injEq] at hfs
        subst hfs
        exact ⟨by simp [deleteGo, hl y, hfind, hd t'.id], rfl⟩
      | none =>
        rw [hfind] at hfs
        have hih := ih.1 t hfs
        exact ⟨by simpa [deleteGo, hl y, hfind] using hih.1, hih.2⟩
    · intro hfs
      rw [List.findSome?_cons] at hfs
      cases hfind : (st.byAccount y).find?
          (fun x => x.import_id == some (mkImportId upTxId)) with
      | some t' =>
        rw [hfind] at hfs
        cases hfs
      | none =>
        rw [hfind] at hfs
        simpa [deleteGo, hl y, hfind] using ih.2 hfs

/-- Witness for claim C10: two mapped accounts both holding a match; only
the first account's transaction is deleted. -/
theorem delete_at_most_one_witness :
    deleteFromYNAB (fun _ => true) (fun _ => true) [("u1", "y1"), ("u2", "y2")] "tx-1"
        ⟨[⟨"t1", "y1", "2024-04-30", none, some "Shop", none, .uncleared, false,
           some "UPBANK:tx-1", false⟩,
          ⟨"t2", "y2", "2024-04-30", none, some "Shop", none, .uncleared, false,
           some "UPBANK:tx-1", false⟩], 0, []⟩ =
      (apiDelete ⟨[⟨"t1", "y1", "2024-04-30", none, some "Shop", none, .uncleared, false,
           some "UPBANK:tx-1", false⟩,
          ⟨"t2", "y2", "2024-04-30", none, some "Shop", none, .uncleared, false,
           some "UPBANK:tx-1", false⟩], 0, []⟩ true "t1", true, false) :=
  ((delete_at_most_one (fun _ => true) (fun _ => true) [("u1", "y1"), ("u2", "y2")] "tx-1"
      ⟨[⟨"t1", "y1", "2024-04-30", none, some "Shop", none, .uncleared, false,
         some "UPBANK:tx-1", false⟩,
        ⟨"t2", "y2", "2024-04-30", none, some "Shop", none, .uncleared, false,
         some "UPBANK:tx-1", false⟩], 0, []⟩ (fun _ => rfl) (fun _ => rfl)).1
    ⟨"t1", "y1", "2024-04-30", none, some "Shop", none, .uncleared, false,
     some "UPBANK:tx-1", false⟩ (by decide)).1

/-! ## Counting the restoration groups -/

/-- Extending the unique bucket of key `k` grows the total bucket volume
by one. -/
theorem replace_map_sum (k : String) (v : UpTx) : ∀ m : List (String × List UpTx),
    m.any (fun p => p.1 == k) = true → m.Pairwise (fun a b => a.1 ≠ b.1) →
    ((m.map (fun p => if p.1 == k then (p.1, p.2 ++ [v]) else p)).map
      (fun g => g.2.length)).sum = (m.map (fun g => g.2.length)).sum + 1 := by
  intro m
  induction m with
  | nil => intro hmem _; simp at hmem
  | cons p m' ih =>
    intro hmem hd
    by_cases hp : p.1 = k
    · have hrest : ∀ q ∈ m', ¬(q.1 = k) := by
        intro q hq hqk
        exact (List.pairwise_cons.mp hd).1 q hq (hp.trans hqk.symm)
      have hid : m'.map (fun p => if p.1 == k then (p.1, p.2 ++ [v]) else p) = m' := by
        rw [List.map_congr_left (g := id) (fun q hq => by simp [hrest q hq]), List.map_id]
      simp only [List.map_cons, hp, beq_self_eq_true, if_true, hid, List.sum_cons,
        List.length_append, List.length_singleton]
      omega
    · have hmem' : m'.any (fun p => p.1 == k) = true := by
        rcases List.any_eq_true.mp hmem with ⟨q, hq, hqk⟩
        rcases List.mem_cons.mp hq with rfl | hq'
        · exact absurd (by simpa using hqk) hp
        · exact List.any_eq_true.mpr ⟨q, hq', hqk⟩
      have hthis := ih hmem' (List.pairwise_cons.mp hd).2
      have hpb : (p.1 == k) = false := by simp [hp]
      simp only [List.map_cons, List.sum_cons, hpb, Bool.false_eq_true, if_false, hthis]
      omega

/-- Pushing one transaction into its bucket grows the total volume by
one. -/
theorem bucketPush_sum (m : List (String × List UpTx)) (k : String) (v : UpTx)
    (hd : m.Pairwise (fun a b => a.1 ≠ b.1)) :
    ((bucketPush m k v).map (fun g => g.2.length)).sum =
      (m.map (fun g => g.2.length)).sum + 1 := by
  unfold bucketPush
  split
  case isTrue h => exact replace_map_sum k v m h hd
  case isFalse h => simp

/-- Pushing preserves the distinctness of the bucket keys. -/
theorem bucketPush_distinct (m : List (String × List UpTx)) (k : String) (v : UpTx)
    (hd : m.Pairwise (fun a b => a.1 ≠ b.1)) :
    (bucketPush m k v).Pairwise (fun a b => a.1 ≠ b.1) := by
  unfold bucketPush
  split
  case isTrue h =>
    apply List.Pairwise.map
    · intro a b hab
      have ha : (if a.1 == k then (a.1, a.2 ++ [v]) else a).1 = a.1 := by split <;> rfl
      have hb : (if b.1 == k then (b.1, b.2 ++ [v]) else b).1 = b.1 := by split <;> rfl
      rw [ha, hb]; exact hab
    · exact hd
  case isFalse h =>
    rw [List.pairwise_append]
    refine ⟨hd, by simp, ?_⟩
    intro a ha b hb
    rcases List.mem_singleton.mp hb with rfl
    intro hak
    rw [List.any_eq_true] at h
    exact h ⟨a, ha, by simp [hak]⟩

/-- Grouping the restoration queue never loses an element: the bucket
volumes add up to the queue length. -/
theorem groupFold_sum (toRes : List (UpTx × String)) : ∀ m : List (String × List UpTx),
    m.Pairwise (fun a b => a.1 ≠ b.1) →
    ((toRes.foldl (fun m p => bucketPush m p.2 p.1) m).map (fun g => g.2.length)).sum =
      (m.map (fun g => g.2.length)).sum + toRes.length ∧
    (toRes.foldl (fun m p => bucketPush m p.2 p.1) m).Pairwise (fun a b => a.1 ≠ b.1) := by
  induction toRes with
  | nil => intro m hd; exact ⟨by simp, hd⟩
  | cons p ps ih =>
    intro m hd
    have h1 := bucketPush_sum m p.2 p.1 hd
    have h2 := bucketPush_distinct m p.2 p.1 hd
    obtain ⟨ha, hb⟩ := ih (bucketPush m p.2 p.1) h2
    refine ⟨?_, hb⟩
    rw [List.foldl_cons, ha, h1]
    simp only [List.length_cons]
    omega

theorem groupByAccount_sum (toRes : List (UpTx × String)) :
    ((groupByAccount toRes).map (fun g => g.2.length)).sum = toRes.length := by
  simpa using (groupFold_sum toRes [] (by simp)).1

/-- With every group create succeeding, the restoration phase restores
and reports exactly the grouped volume. -/
theorem restoreGroups_len (resOk : String → Bool) (now : String)
    (hres : ∀ y, resOk y = true) : ∀ (gs : List (String × List UpTx)) (st : Ledger),
    (restoreGroups resOk now gs st).2.2.length = (gs.map (fun g => g.2.length)).sum ∧
    (restoreGroups resOk now gs st).2.1 = (gs.map (fun g => g.2.length)).sum := by
  intro gs
  induction gs with
  | nil => intro st; simp [restoreGroups]
  | cons g gs ih =>
    intro st
    obtain ⟨y, us⟩ := g
    obtain ⟨h1, h2⟩ := ih (apiCreate st (us.map (mapUpToYnabRestore y now))).1
    constructor <;> simp [restoreGroups, hres y, h1, h2]

/-! ## Claim C3 -/

/-- Fixture: an active mirrored target transaction. -/
def fixTx : YnabTx :=
  ⟨"t1", "y1", "2024-04-30", none, some "Shop", none, .cleared, false,
   some "UPBANK:tx-1", false⟩

/-- Fixture: a target ledger holding just the mirror. -/
def fixLedger : Ledger := ⟨[fixTx], 0, []⟩

/-- Fixture: one account mapping. -/
def fixMapping : List (String × String) := [("u1", "y1")]

/-- Fixture: the source still holds the mirrored transaction. -/
def fixFetch : String → String → List UpTx :=
  fun u _ => if u == "u1" then [malformedTx] else []

/-- Fixture: a reconciliation oracle whose every remote call succeeds. -/
def allOk : ResyncOracle :=
  ⟨fun _ => true, fun _ => true, fun _ => true, fun _ => ⟨true, true, true⟩⟩

/-- Claim C3 counterexample: on the same data, a dry run reports a
would-be-synced total of 0 while the live run's plan syncs total 1 (one
duplicate): the dry run skips the sync phase entirely instead of
computing its counts, so the classification counts do not all match. -/
theorem dry_run_total_differs :
    (performResyncAll allOk fixMapping fixFetch "t" true fixLedger).toOption.map
      (fun p => p.2.total) = some 0 ∧
    (performResyncAll allOk fixMapping fixFetch "t" false fixLedger).toOption.map
      (fun p => p.2.total) = some 1 := by
  decide

/-- Destructuring an Except bind that succeeded. -/
theorem bind_eq_ok {ε α β : Type} {x : Except ε α} {g : α → Except ε β} {r : β}
    (h : x >>= g = .ok r) : ∃ a, x = .ok a ∧ g a = .ok r := by
  cases x with
  | ok a => exact ⟨a, rfl, by simpa [Bind.bind, Except.bind] using h⟩
  | error e => simp [Bind.bind, Except.bind] at h

/-- Claim C3 amended: a dry reconciliation run issues no create, update
or delete call to the target ledger — it hands the ledger back exactly
as it was — and reports the same orphan classification and the same
number of restoration candidates as a live run on the same data (the
live run's group creates succeeding); but it does not compute
would-be-synced counts: its imported, duplicates and total are 0, not
the live plan's sync counts. -/
theorem dry_run_no_side_effects (o : ResyncOracle) (mapping : List (String × String))
    (fetchUp : String → String → List UpTx) (now : String) (st st₁ st₂ : Ledger)
    (r₁ r₂ : ResyncResult)
    (hres : ∀ y, o.restoreOk y = true)
    (hdry : performResyncAll o mapping fetchUp now true st = .ok (st₁, r₁))
    (hlive : performResyncAll o mapping fetchUp now false st = .ok (st₂, r₂)) :
    st₁ = st ∧ r₁.imported = 0 ∧ r₁.duplicates = 0 ∧ r₁.total = 0 ∧
    r₁.orphanedTransactions = r₂.orphanedTransactions ∧
    r₁.restoredTransactions.length = r₂.restoredTransactions.length := by
  unfold performResyncAll at hdry hlive
  obtain ⟨c, hcolD, hrestD⟩ := bind_eq_ok hdry
  obtain ⟨c', hcolL, hrestL⟩ := bind_eq_ok hlive
  rw [hcolD] at hcolL
  injection hcolL with hcc
  subst hcc
  obtain ⟨m, e⟩ := c
  cases e with
  | none =>
    simp only [Except.ok.injEq, Prod.mk.injEq] at hrestD hrestL
    obtain ⟨hA, hB⟩ := hrestD
    obtain ⟨hA', hB'⟩ := hrestL
    subst hA hB hA' hB'
    exact ⟨rfl, rfl, rfl, rfl, rfl, rfl⟩
  | some earliest =>
    simp only at hrestD hrestL
    obtain ⟨fin, hfin, hjp⟩ := bind_eq_ok hrestD
    obtain ⟨fin', hsync, hjp'⟩ := bind_eq_ok hrestL
    simp only [Except.ok.injEq] at hfin
    simp only [Except.ok.injEq, Prod.mk.injEq] at hjp hjp'
    obtain ⟨hA, hB⟩ := hjp
    obtain ⟨hA', hB'⟩ := hjp'
    subst hA hB hA' hB'
    rw [← hfin]
    refine ⟨?_, rfl, rfl, rfl, rfl, ?_⟩
    · show (if (!(sourceScan fetchUp earliest (restorableOf st.txs) mapping
            ([], [])).2.isEmpty) = true then
          ((st, 0).1, 0, (sourceScan fetchUp earliest (restorableOf st.txs) mapping
            ([], [])).2.map (fun p => mkRestored p.1))
        else ((st, 0).1, 0, [])).1 = st
      split <;> rfl
    simp only [Bool.not_true, Bool.not_false, Bool.true_and, Bool.false_and,
      Bool.false_eq_true, if_false]
    by_cases hse :
        (sourceScan fetchUp earliest (restorableOf st.txs) mapping ([], [])).2.isEmpty = true
    · have hnil : (sourceScan fetchUp earliest (restorableOf st.txs) mapping ([], [])).2 = [] :=
        List.isEmpty_iff.mp hse
      simp [hse, hnil]
    · have hse' : (!(sourceScan fetchUp earliest (restorableOf st.txs) mapping
          ([], [])).2.isEmpty) = true := by simp [hse]
      simp [hse', restoreGroups_len o.restoreOk now hres, groupByAccount_sum]

/-- Fixture: the ledger a live fixture run leaves behind (one batched
create call whose single entry was a duplicate). -/
def fixLiveLedger : Ledger :=
  ⟨[fixTx], 0,
   [.create [⟨"y1", "2024-05-01", none, "Shop", none, .cleared, false,
      some "UPBANK:tx-1"⟩]]⟩

/-- Witness for the amended claim C3 at the concrete fixtures. -/
theorem dry_run_no_side_effects_witness :
    fixLedger = fixLedger ∧
    (⟨true, some "2024-04-30", 0, 0, 0, 0, [], 0, []⟩ : ResyncResult).imported = 0 ∧
    (⟨true, some "2024-04-30", 0, 0, 0, 0, [], 0, []⟩ : ResyncResult).duplicates = 0 ∧
    (⟨true, some "2024-04-30", 0, 0, 0, 0, [], 0, []⟩ : ResyncResult).total = 0 ∧
    (⟨true, some "2024-04-30", 0, 0, 0, 0, [], 0, []⟩ : ResyncResult).orphanedTransactions =
      (⟨false, some "2024-04-30", 0, 1, 1, 0, [], 0, []⟩ : ResyncResult).orphanedTransactions ∧
    (⟨true, some "2024-04-30", 0, 0, 0, 0, [], 0, []⟩ : ResyncResult).restoredTransactions.length =
      (⟨false, some "2024-04-30", 0, 1, 1, 0, [], 0, []⟩ : ResyncResult).restoredTransactions.length :=
  dry_run_no_side_effects allOk fixMapping fixFetch "t" fixLedger fixLedger fixLiveLedger
    ⟨true, some "2024-04-30", 0, 0, 0, 0, [], 0, []⟩
    ⟨false, some "2024-04-30", 0, 1, 1, 0, [], 0, []⟩
    (fun _ => rfl) (by rfl) (by rfl)

/-! ## Claim C8 -/

/-- A single failing step 1 listing aborts the whole collection. -/
theorem collectStep_error (listOk : String → Bool) (st : Ledger) :
    ∀ (mapping : List (String × String)) acc, (∃ p ∈ mapping, listOk p.2 = false) →
    collectStep listOk st mapping acc = .error () := by
  intro mapping
  induction mapping with
  | nil =>
    rintro acc ⟨p, hp, _⟩
    cases hp
  | cons q rest ih =>
    rintro acc ⟨p, hp, hbad⟩
    obtain ⟨u, y⟩ := q
    rcases List.mem_cons.mp hp with rfl | hp'
    · simp [collectStep, hbad]
    · by_cases hy : listOk y = true
      · simp only [collectStep, hy, if_true]
        exact ih _ ⟨p, hp', hbad⟩
      · simp [collectStep, hy]

/-- With every listing succeeding, the collection succeeds. -/
theorem collectStep_ok (listOk : String → Bool) (st : Ledger) :
    ∀ (mapping : List (String × String)) acc, (∀ p ∈ mapping, listOk p.2 = true) →
    ∃ v, collectStep listOk st mapping acc = .ok v := by
  intro mapping
  induction mapping with
  | nil =>
    intro acc _
    exact ⟨acc, rfl⟩
  | cons q rest ih =>
    intro acc hall
    obtain ⟨u, y⟩ := q
    have hy := hall (u, y) (List.mem_cons_self _ _)
    simp only [collectStep, hy, if_true]
    exact ih _ (fun p hp => hall p (List.mem_cons_of_mem _ hp))

/-- The orphan-deletion phase counts exactly the orphans whose delete
call succeeded; failed items are skipped, not fatal. -/
theorem deleteOrphans_count (delOk : String → Bool) :
    ∀ (os : List OrphanedTx) (st : Ledger),
    (deleteOrphans delOk os st).2 = (os.filter (fun x => delOk x.ynabId)).length := by
  intro os
  induction os with
  | nil => intro st; rfl
  | cons o os ih =>
    intro st
    by_cases hok : delOk o.ynabId = true
    · simp [deleteOrphans, hok, List.filter_cons, ih]
    · simp [deleteOrphans, hok, List.filter_cons, ih]

/-- Whatever groups fail, the restoration phase reports as restoredCount
exactly the number of transactions it reports restored. -/
theorem restoreGroups_count (resOk : String → Bool) (now : String) :
    ∀ (gs : List (String × List UpTx)) (st : Ledger),
    (restoreGroups resOk now gs st).2.1 = (restoreGroups resOk now gs st).2.2.length := by
  intro gs
  induction gs with
  | nil => intro st; rfl
  | cons g gs ih =>
    intro st
    obtain ⟨y, us⟩ := g
    by_cases hok : resOk y = true
    · simp [restoreGroups, hok, ih]
    · simp [restoreGroups, hok, ih]

/-- With every per-account create succeeding, the final sync loop
completes. -/
theorem syncAll_ok (o : ResyncOracle) (fetchUp : String → String → List UpTx)
    (now earliest : String) (hsync : ∀ y, (o.sync y).createOk = true) :
    ∀ (mapping : List (String × String)) (st : Ledger),
    ∃ v, syncAll o fetchUp now earliest mapping st = .ok v := by
  intro mapping
  induction mapping with
  | nil =>
    intro st
    exact ⟨(st, 0, 0, 0), rfl⟩
  | cons q rest ih =>
    intro st
    obtain ⟨u, y⟩ := q
    obtain ⟨v, hv⟩ := ih (syncFinalState (o.sync y) y now (fetchUp u earliest) st)
    simp only [syncAll, syncToYNAB_eq (o.sync y) y now (fetchUp u earliest) st (hsync y),
      Bind.bind, Except.bind, hv]
    exact ⟨_, rfl⟩

/-- Claim C8: a failure while listing any mapped account's target-ledger
transactions aborts the whole reconciliation pass with an error and no
report; whereas with listings and the final syncs succeeding, per-item
delete failures and per-group restore failures are skipped and the pass
completes, reporting partial success counts — orphanedDeleted counts
exactly the orphans whose delete succeeded, and restoredCount matches the
restored-transactions report. -/
theorem resync_failure_semantics (o : ResyncOracle) (mapping : List (String × String))
    (fetchUp : String → String → List UpTx) (now : String) (dryRun : Bool) (st : Ledger) :
    ((∃ p ∈ mapping, o.listOk p.2 = false) →
      performResyncAll o mapping fetchUp now dryRun st = .error ()) ∧
    ((∀ p ∈ mapping, o.listOk p.2 = true) → (∀ y, (o.sync y).createOk = true) →
      ∃ stF r, performResyncAll o mapping fetchUp now false st = .ok (stF, r) ∧
        r.orphanedDeleted =
          (r.orphanedTransactions.filter (fun x => o.deleteOk x.ynabId)).length ∧
        r.restoredCount = r.restoredTransactions.length) := by
  constructor
  · intro hbad
    unfold performResyncAll
    rw [collectStep_error o.listOk st mapping ([], none) hbad]
    rfl
  · intro hl hsync
    obtain ⟨v, hcol⟩ := collectStep_ok o.listOk st mapping ([], none) hl
    unfold performResyncAll
    rw [hcol]
    obtain ⟨m, e⟩ := v
    cases e with
    | none => exact ⟨st, _, rfl, rfl, rfl⟩
    | some earliest =>
      simp only [Bind.bind, Except.bind, Bool.false_eq_true, if_false]
      obtain ⟨f, hsf⟩ := syncAll_ok o fetchUp now earliest hsync mapping
        ((if (!false && !(sourceScan fetchUp earliest (restorableOf st.txs) mapping
              ([], [])).2.isEmpty) = true then
          restoreGroups o.restoreOk now
            (groupByAccount (sourceScan fetchUp earliest (restorableOf st.txs) mapping
              ([], [])).2)
            (if (!false && !(findOrphans (sourceScan fetchUp earliest (restorableOf st.txs)
                  mapping ([], [])).1 m).isEmpty) = true then
              deleteOrphans o.deleteOk
                (findOrphans (sourceScan fetchUp earliest (restorableOf st.txs) mapping
                  ([], [])).1 m) st
            else (st, 0)).1
        else
          if (!(sourceScan fetchUp earliest (restorableOf st.txs) mapping
              ([], [])).2.isEmpty) = true then
            ((if (!false && !(findOrphans (sourceScan fetchUp earliest (restorableOf st.txs)
                  mapping ([], [])).1 m).isEmpty) = true then
              deleteOrphans o.deleteOk
                (findOrphans (sourceScan fetchUp earliest (restorableOf st.txs) mapping
                  ([], [])).1 m) st
            else (st, 0)).1, 0,
            (sourceScan fetchUp earliest (restorableOf st.txs) mapping ([], [])).2.map
              (fun p => mkRestored p.1))
          else
            ((if (!false && !(findOrphans (sourceScan fetchUp earliest (restorableOf st.txs)
                  mapping ([], [])).1 m).isEmpty) = true then
              deleteOrphans o.deleteOk
                (findOrphans (sourceScan fetchUp earliest (restorableOf st.txs) mapping
                  ([], [])).1 m) st
            else (st, 0)).1, 0, [])).1)
      rw [hsf]
      refine ⟨f.1, _, rfl, ?_, ?_⟩
      · show (if (!false && !(findOrphans (sourceScan fetchUp earliest (restorableOf st.txs)
              mapping ([], [])).1 m).isEmpty) = true then
            deleteOrphans o.deleteOk (findOrphans (sourceScan fetchUp earliest
              (restorableOf st.txs) mapping ([], [])).1 m) st
          else (st, 0)).2 = _
        by_cases horph : (findOrphans (sourceScan fetchUp earliest (restorableOf st.txs)
            mapping ([], [])).1 m).isEmpty = true
        · have hnil := List.isEmpty_iff.mp horph
          simp [horph, hnil]
        · have horph' : (!(findOrphans (sourceScan fetchUp earliest (restorableOf st.txs)
              mapping ([], [])).1 m).isEmpty) = true := by simp [horph]
          simp only [horph', Bool.not_false, Bool.true_and, if_true]
          exact deleteOrphans_count o.deleteOk _ st
      · by_cases hscan : (sourceScan fetchUp earliest (restorableOf st.txs) mapping
            ([], [])).2.isEmpty = true
        · have hnil := List.isEmpty_iff.mp hscan
          simp [hscan, hnil]
        · have hscan' : (!(sourceScan fetchUp earliest (restorableOf st.txs) mapping
              ([], [])).2.isEmpty) = true := by simp [hscan]
          simp only [hscan', Bool.not_false, Bool.true_and, if_true]
          exact restoreGroups_count o.restoreOk now _ _

/-- Fixture: a reconciliation oracle whose per-orphan deletes all fail. -/
def oPart : ResyncOracle :=
  ⟨fun _ => true, fun _ => false, fun _ => true, fun _ => ⟨true, true, true⟩⟩

/-- Witness for claim C8: the source is empty, so the mirror is orphaned;
its delete call fails, yet the pass completes, reporting the orphan with
orphanedDeleted 0. -/
theorem resync_failure_semantics_witness :
    performResyncAll oPart fixMapping (fun _ _ => []) "t" false fixLedger =
      .ok (⟨[fixTx], 0, [.delete "t1"]⟩,
        ⟨false, some "2024-04-30", 0, 0, 0, 0,
         [⟨"t1", "tx-1", "Shop", none, "2024-04-30"⟩], 0, []⟩) ∧
    (⟨false, some "2024-04-30", 0, 0, 0, 0,
      [⟨"t1", "tx-1", "Shop", none, "2024-04-30"⟩], 0, []⟩ : ResyncResult).orphanedDeleted =
      ((⟨false, some "2024-04-30", 0, 0, 0, 0,
        [⟨"t1", "tx-1", "Shop", none, "2024-04-30"⟩], 0, []⟩ :
          ResyncResult).orphanedTransactions.filter
        (fun x => oPart.deleteOk x.ynabId)).length := by
  obtain ⟨stF, r, h1, h2, h3⟩ :=
    (resync_failure_semantics oPart fixMapping (fun _ _ => []) "t" false fixLedger).2
      (fun p _ => rfl) (fun _ => rfl)
  have he : performResyncAll oPart fixMapping (fun _ _ => []) "t" false fixLedger =
      .ok (⟨[fixTx], 0, [.delete "t1"]⟩,
        ⟨false, some "2024-04-30", 0, 0, 0, 0,
         [⟨"t1", "tx-1", "Shop", none, "2024-04-30"⟩], 0, []⟩) := by rfl
  have hr : r = ⟨false, some "2024-04-30", 0, 0, 0, 0,
      [⟨"t1", "tx-1", "Shop", none, "2024-04-30"⟩], 0, []⟩ := by
    have := h1.symm.trans he
    simp only [Except.ok.injEq, Prod.mk.injEq] at this
    exact this.2
  exact ⟨he, by rw [← hr, h2]⟩

/-! ## Claim C2: lemmas about the scan and the orphan classification -/

/-- Membership in the insertion-ordered set. -/
theorem setInsert_contains (l : List String) (x s : String) :
    (setInsert l x).contains s = true ↔ l.contains s = true ∨ x = s := by
  unfold setInsert
  split
  case isTrue h =>
    constructor
    · exact fun hs => Or.inl hs
    · rintro (hs | rfl)
      · exact hs
      · exact h
  case isFalse h =>
    rw [List.elem_iff, List.elem_iff, List.mem_append, List.mem_singleton]
    constructor
    · rintro (hs | rfl)
      · exact Or.inl hs
      · exact Or.inr rfl
    · rintro (hs | rfl)
      · exact Or.inl hs
      · exact Or.inr rfl

/-- The truncated-id component of one scan step. -/
theorem scanStep_fst (restorable : List String) (y : String)
    (a : List String × List (UpTx × String)) (tx : UpTx) :
    (scanStep restorable y a tx).1 = setInsert a.1 (jsSubstring tx.id 29) := by
  unfold scanStep
  split <;> rfl

/-- The truncated ids accumulated over a fetch. -/
theorem scanFold_contains (restorable : List String) (y : String) (txs : List UpTx) :
    ∀ (acc : List String × List (UpTx × String)) (s : String),
    ((txs.foldl (scanStep restorable y) acc).1.contains s = true) ↔
      (acc.1.contains s = true ∨ ∃ tx ∈ txs, jsSubstring tx.id 29 = s) := by
  induction txs with
  | nil =>
    intro acc s
    simp
  | cons tx rest ih =>
    intro acc s
    rw [List.foldl_cons, ih (scanStep restorable y acc tx) s]
    rw [scanStep_fst, setInsert_contains]
    constructor
    · rintro ((hs | rfl) | ⟨u, hu, hus⟩)
      · exact Or.inl hs
      · exact Or.inr ⟨tx, List.mem_cons_self _ _, rfl⟩
      · exact Or.inr ⟨u, List.mem_cons_of_mem _ hu, hus⟩
    · rintro (hs | ⟨u, hu, hus⟩)
      · exact Or.inl (Or.inl hs)
      · rcases List.mem_cons.mp hu with rfl | hu'
        · exact Or.inl (Or.inr hus)
        · exact Or.inr ⟨u, hu', hus⟩

/-- The source-id set of step 3 holds exactly the truncated ids of the
transactions fetched for the mapped accounts. -/
theorem sourceScan_contains (fetchUp : String → String → List UpTx) (earliest : String)
    (restorable : List String) : ∀ (mapping : List (String × String))
    (acc : List String × List (UpTx × String)) (s : String),
    ((sourceScan fetchUp earliest restorable mapping acc).1.contains s = true) ↔
      (acc.1.contains s = true ∨
        ∃ p ∈ mapping, ∃ tx ∈ fetchUp p.1 earliest, jsSubstring tx.id 29 = s) := by
  intro mapping
  induction mapping with
  | nil =>
    intro acc s
    simp [sourceScan]
  | cons q rest ih =>
    intro acc s
    obtain ⟨u, y⟩ := q
    show ((sourceScan fetchUp earliest restorable rest
      ((fetchUp u earliest).foldl (scanStep restorable y) acc)).1.contains s = true) ↔ _
    rw [ih _ s, scanFold_contains restorable y (fetchUp u earliest) acc s]
    constructor
    · rintro ((hs | ⟨tx, htx, hts⟩) | ⟨p, hp, tx, htx, hts⟩)
      · exact Or.inl hs
      · exact Or.inr ⟨(u, y), List.mem_cons_self _ _, tx, htx, hts⟩
      · exact Or.inr ⟨p, List.mem_cons_of_mem _ hp, tx, htx, hts⟩
    · rintro (hs | ⟨p, hp, tx, htx, hts⟩)
      · exact Or.inl (Or.inl hs)
      · rcases List.mem_cons.mp hp with rfl | hp'
        · exact Or.inl (Or.inr ⟨tx, htx, hts⟩)
        · exact Or.inr ⟨p, hp', tx, htx, hts⟩

/-- Membership in the orphan classification. -/
theorem findOrphans_mem (ids : List String) (m : List (String × List CollectedTx))
    (x : OrphanedTx) :
    x ∈ findOrphans ids m ↔ ∃ p ∈ m, ∃ c ∈ p.2,
      (!ids.contains (jsReplaceFirst c.import_id "UPBANK:")) = true ∧ x = mkOrphan c := by
  have hgen : ∀ (mm : List (String × List CollectedTx)) (acc : List OrphanedTx),
      x ∈ mm.foldl (fun acc p =>
        acc ++ (p.2.filter
          (fun c => !ids.contains (jsReplaceFirst c.import_id "UPBANK:"))).map mkOrphan) acc ↔
      x ∈ acc ∨ ∃ p ∈ mm, ∃ c ∈ p.2,
        (!ids.contains (jsReplaceFirst c.import_id "UPBANK:")) = true ∧ x = mkOrphan c := by
    intro mm
    induction mm with
    | nil =>
      intro acc
      simp
    | cons p rest ih =>
      intro acc
      rw [List.foldl_cons, ih]
      rw [List.mem_append]
      constructor
      · rintro ((hx | hx) | ⟨q, hq, c, hc, hcond, rfl⟩)
        · exact Or.inl hx
        · obtain ⟨c, hcf, rfl⟩ := List.mem_map.mp hx
          obtain ⟨hcm, hcond⟩ := List.mem_filter.mp hcf
          exact Or.inr ⟨p, List.mem_cons_self _ _, c, hcm, hcond, rfl⟩
        · exact Or.inr ⟨q, List.mem_cons_of_mem _ hq, c, hc, hcond, rfl⟩
      · rintro (hx | ⟨q, hq, c, hc, hcond, rfl⟩)
        · exact Or.inl (Or.inl hx)
        · rcases List.mem_cons.mp hq with rfl | hq'
          · exact Or.inl (Or.inr (List.mem_map.mpr
              ⟨c, List.mem_filter.mpr ⟨hc, hcond⟩, rfl⟩))
          · exact Or.inr ⟨q, hq', c, hc, hcond, rfl⟩
  simpa only [List.not_mem_nil, false_or] using hgen m []

/-- Every collected transaction of step 1 projects an actual non-deleted
stored transaction. -/
def goodMap (st : Ledger) (m : List (String × List CollectedTx)) : Prop :=
  ∀ p ∈ m, ∀ c ∈ p.2, ∃ t ∈ st.txs, t.deleted = false ∧ c = collectTx t

/-- `mapSet` only introduces entries of the given value or keeps old
ones. -/
theorem mapSet_mem (m : List (String × List CollectedTx)) (k : String)
    (v : List CollectedTx) (p : String × List CollectedTx) (hp : p ∈ mapSet m k v) :
    p ∈ m ∨ p.2 = v := by
  unfold mapSet at hp
  split at hp
  · obtain ⟨q, hq, hpq⟩ := List.mem_map.mp hp
    by_cases hk : q.1 == k
    · simp only [hk, if_true] at hpq
      exact Or.inr (by rw [← hpq])
    · simp only [hk, Bool.false_eq_true, if_false] at hpq
      exact Or.inl (hpq ▸ hq)
  · rcases List.mem_append.mp hp with hq | hq
    · exact Or.inl hq
    · rcases List.mem_singleton.mp hq with rfl
      exact Or.inr rfl

/-- Step 1's collected map only holds projections of non-deleted stored
transactions. -/
theorem collectStep_good (listOk : String → Bool) (st : Ledger) :
    ∀ (mapping : List (String × String)) (acc : List (String × List CollectedTx) × Option String)
    (v : List (String × List CollectedTx) × Option String),
    collectStep listOk st mapping acc = .ok v → goodMap st acc.1 → goodMap st v.1 := by
  intro mapping
  induction mapping with
  | nil =>
    intro acc v hv hacc
    cases hv
    exact hacc
  | cons q rest ih =>
    intro acc v hv hacc
    obtain ⟨u, y⟩ := q
    by_cases hy : listOk y = true
    · simp only [collectStep, hy, if_true] at hv
      apply ih _ v hv
      intro p hp c hc
      rcases mapSet_mem acc.1 y _ p hp with hold | hnewv
      · exact hacc p hold c hc
      · rw [hnewv] at hc
        obtain ⟨t, htf, rfl⟩ := List.mem_map.mp hc
        obtain ⟨htb, hup⟩ := List.mem_filter.mp htf
        obtain ⟨htm, hacct⟩ := List.mem_filter.mp htb
        refine ⟨t, htm, ?_, rfl⟩
        cases hdel : t.deleted
        · rfl
        · rw [isUpbankActive] at hup
          cases hti : t.import_id with
          | none => rw [hti] at hup; cases hup
          | some iid =>
            rw [hti, hdel] at hup
            simp at hup
    · simp only [collectStep, hy, Bool.false_eq_true, if_false] at hv
      cases hv

/-! ## Deletion persists to the end of the pass -/

/-- Every stored transaction with the given target id is soft-deleted. -/
def idDead (st : Ledger) (i : String) : Prop :=
  ∀ t ∈ st.txs, t.id = i → t.deleted = true

/-- No fresh target id the ledger can still assign equals `i`. -/
def FreshFor (st : Ledger) (i : String) : Prop :=
  ∀ n, st.nextId ≤ n → freshId n ≠ i

/-- A successful delete kills its target id. -/
theorem apiDelete_idDead_self (st : Ledger) (i : String) : idDead (apiDelete st true i) i := by
  intro t ht hid
  obtain ⟨t', ht', rfl⟩ := List.mem_map.mp ht
  by_cases h : t'.id == i
  · simp [h]
  · rw [show (if t'.id == i then { t' with deleted := true } else t') = t' by simp [h]] at hid ⊢
    exact absurd (by simp [hid]) h

/-- Deletes never resurrect a dead id. -/
theorem apiDelete_pres (st : Ledger) (b : Bool) (i j : String) (h : idDead st j) :
    idDead (apiDelete st b i) j := by
  intro t ht hid
  unfold apiDelete at ht
  cases b with
  | false => exact h t ht hid
  | true =>
    obtain ⟨t', ht', rfl⟩ := List.mem_map.mp ht
    by_cases hb : t'.id == i
    · simp [hb]
    · rw [show (if t'.id == i then { t' with deleted := true } else t') = t' by simp [hb]] at hid ⊢
      exact h t' ht' hid

theorem apiDelete_nextId (st : Ledger) (b : Bool) (i : String) :
    (apiDelete st b i).nextId = st.nextId := by
  unfold apiDelete
  cases b <;> rfl

/-- Cleared-state updates never resurrect a dead id. -/
theorem apiUpdate_pres (st : Ledger) (us : List UpdateEntry) (j : String) (h : idDead st j) :
    idDead (apiUpdate st us) j := by
  intro t ht hid
  obtain ⟨t', ht', hdel, himp, _⟩ := updateGo_mem_ex us st.txs t ht
  cases hf : us.find? (fun v => v.id == t'.id) <;>
    · have := h t' ht'
      simp_all

/-- The batched create cannot recreate a dead id whose value is out of
the fresh-id range, and keeps it out of range. -/
theorem createGo_pres (es : List YnabSaveTx) (st : Ledger) (j : String)
    (h : idDead st j) (hf : FreshFor st j) :
    idDead (createGo st es).1 j ∧ FreshFor (createGo st es).1 j := by
  obtain ⟨new, h₁, h₂, _, h₄⟩ := createGo_txs es st
  constructor
  · intro t ht hid
    rw [h₁] at ht
    rcases List.mem_append.mp ht with ht' | ht'
    · exact h t ht' hid
    · obtain ⟨_, n, e, hn, _, rfl⟩ := h₄ t ht'
      exact absurd hid (hf n hn)
  · intro n hn
    exact hf n (le_trans h₂ hn)

theorem deleteOrphans_pres (delOk : String → Bool) :
    ∀ (os : List OrphanedTx) (st : Ledger) (j : String), idDead st j →
    idDead (deleteOrphans delOk os st).1 j := by
  intro os
  induction os with
  | nil => exact fun st j h => h
  | cons o os ih =>
    intro st j h
    by_cases hok : delOk o.ynabId = true
    · simp only [deleteOrphans, hok, if_true]
      exact ih _ j (apiDelete_pres st true o.ynabId j h)
    · simp only [deleteOrphans, hok, Bool.false_eq_true, if_false]
      exact ih _ j (apiDelete_pres st false o.ynabId j h)

theorem deleteOrphans_nextId (delOk : String → Bool) :
    ∀ (os : List OrphanedTx) (st : Ledger),
    (deleteOrphans delOk os st).1.nextId = st.nextId := by
  intro os
  induction os with
  | nil => exact fun st => rfl
  | cons o os ih =>
    intro st
    by_cases hok : delOk o.ynabId = true
    · simp only [deleteOrphans, hok, if_true]
      rw [ih, apiDelete_nextId]
    · simp only [deleteOrphans, hok, Bool.false_eq_true, if_false]
      rw [ih, apiDelete_nextId]

/-- With every delete succeeding, the deletion phase kills every marked
orphan's target id. -/
theorem deleteOrphans_dead (delOk : String → Bool) (hd : ∀ i, delOk i = true) :
    ∀ (os : List OrphanedTx) (st : Ledger) (x : OrphanedTx), x ∈ os →
    idDead (deleteOrphans delOk os st).1 x.ynabId := by
  intro os
  induction os with
  | nil =>
    intro st x hx
    cases hx
  | cons o os ih =>
    intro st x hx
    simp only [deleteOrphans, hd o.ynabId, if_true]
    rcases List.mem_cons.mp hx with rfl | hx'
    · exact deleteOrphans_pres delOk os _ x.ynabId (apiDelete_idDead_self st x.ynabId)
    · exact ih _ x hx'

theorem restoreGroups_pres (resOk : String → Bool) (now : String) :
    ∀ (gs : List (String × List UpTx)) (st : Ledger) (j : String),
    idDead st j → FreshFor st j →
    idDead (restoreGroups resOk now gs st).1 j ∧ FreshFor (restoreGroups resOk now gs st).1 j := by
  intro gs
  induction gs with
  | nil => exact fun st j h hf => ⟨h, hf⟩
  | cons g gs ih =>
    intro st j h hf
    obtain ⟨y, us⟩ := g
    by_cases hok : resOk y = true
    · simp only [restoreGroups, hok, if_true]
      obtain ⟨h', hf'⟩ := createGo_pres (us.map (mapUpToYnabRestore y now))
        { st with calls := st.calls ++ [.create (us.map (mapUpToYnabRestore y now))] } j h hf
      exact ih _ j h' hf'
    · simp only [restoreGroups, hok, Bool.false_eq_true, if_false]
      exact ih _ j h hf

/-- The state a sync leaves behind cannot resurrect a dead out-of-range
id. -/
theorem syncFinalState_pres (o : SyncOracle) (A now : String) (ups : List UpTx) (st : Ledger)
    (j : String) (h : idDead st j) (hf : FreshFor st j) :
    idDead (syncFinalState o A now ups st) j ∧ FreshFor (syncFinalState o A now ups st) j := by
  have hcr : idDead (apiCreate st (ups.map (mapUpToYnab A now))).1 j ∧
      FreshFor (apiCreate st (ups.map (mapUpToYnab A now))).1 j :=
    createGo_pres (ups.map (mapUpToYnab A now))
      { st with calls := st.calls ++ [.create (ups.map (mapUpToYnab A now))] } j h hf
  have hup : ∀ us, idDead (apiUpdate (apiCreate st (ups.map (mapUpToYnab A now))).1 us) j ∧
      FreshFor (apiUpdate (apiCreate st (ups.map (mapUpToYnab A now))).1 us) j :=
    fun us => ⟨apiUpdate_pres _ us j hcr.1, hcr.2⟩
  simp only [syncFinalState]
  by_cases h1 : (ups.map (mapUpToYnab A now)).isEmpty = true
  · rw [if_pos h1]
    exact ⟨h, hf⟩
  rw [if_neg h1]
  by_cases h2 : ((apiCreate st (ups.map (mapUpToYnab A now))).2.length == 0) = true
  · rw [if_pos h2]
    exact hcr
  rw [if_neg h2]
  by_cases h3 : (!o.lookupOk) = true
  · rw [if_pos h3]
    exact hcr
  rw [if_neg h3]
  by_cases h4 : (mkUpdates ((apiCreate st (ups.map (mapUpToYnab A now))).1.byAccount A)
      (desiredPairs (ups.map (mapUpToYnab A now))
        (apiCreate st (ups.map (mapUpToYnab A now))).2)).isEmpty = true
  · rw [if_pos h4]
    exact hcr
  rw [if_neg h4]
  by_cases h5 : (!o.updateOk) = true
  · rw [if_pos h5]
    exact hcr
  rw [if_neg h5]
  exact hup _

/-- A completed sync cannot resurrect a dead out-of-range id. -/
theorem syncToYNAB_pres (o : SyncOracle) (A now : String) (ups : List UpTx) (st : Ledger)
    (v : Ledger × SyncResult) (j : String)
    (hv : syncToYNAB o A now ups st = .ok v) (h : idDead st j) (hf : FreshFor st j) :
    idDead v.1 j ∧ FreshFor v.1 j := by
  by_cases hc : o.createOk = true
  · rw [syncToYNAB_eq o A now ups st hc] at hv
    injection hv with hv'
    rw [← hv']
    exact syncFinalState_pres o A now ups st j h hf
  · unfold syncToYNAB at hv
    by_cases h1 : (ups.map (mapUpToYnab A now)).isEmpty = true
    · rw [if_pos h1] at hv
      injection hv with hv'
      rw [← hv']
      exact ⟨h, hf⟩
    · rw [if_neg h1] at hv
      have hcb : (!o.createOk) = true := by simp [hc]
      rw [if_pos hcb] at hv
      cases hv

theorem syncAll_pres (o : ResyncOracle) (fetchUp : String → String → List UpTx)
    (now earliest : String) :
    ∀ (mapping : List (String × String)) (st : Ledger) (v : Ledger × ℕ × ℕ × ℕ) (j : String),
    syncAll o fetchUp now earliest mapping st = .ok v → idDead st j → FreshFor st j →
    idDead v.1 j := by
  intro mapping
  induction mapping with
  | nil =>
    intro st v j hv h hf
    cases hv
    exact h
  | cons q rest ih =>
    intro st v j hv h hf
    obtain ⟨u, y⟩ := q
    simp only [syncAll] at hv
    obtain ⟨r, hr, hrest⟩ := bind_eq_ok hv
    obtain ⟨w, hw, hfin⟩ := bind_eq_ok hrest
    obtain ⟨h', hf'⟩ := syncToYNAB_pres (o.sync y) y now (fetchUp u earliest) st r j hr h hf
    have := ih r.1 w j hw h' hf'
    cases hfin
    exact this

/-- Claim C2: in a reconciliation pass over `mapping`, step 1 collecting
`c` (whose import id is the key derived from source id `srcId`), the
stripped import id is exactly the source id truncated to 29 characters;
the scan set holds exactly the truncated ids of every source transaction
fetched since the earliest date across all mappings; `c` is marked
orphaned exactly when its truncated id is absent from that set; and in a
live pass with deletes succeeding, every transaction so marked ends up
soft-deleted in the final ledger. -/
theorem orphan_truncated_key (o : ResyncOracle) (mapping : List (String × String))
    (fetchUp : String → String → List UpTx) (now : String)
    (st stF : Ledger) (r : ResyncResult)
    (m : List (String × List CollectedTx)) (earliest : String)
    (srcId y : String) (l : List CollectedTx) (c : CollectedTx)
    (hcol : collectStep o.listOk st mapping ([], none) = .ok (m, some earliest))
    (hml : (y, l) ∈ m) (hcl : c ∈ l) (hci : c.import_id = mkImportId srcId)
    (hlive : performResyncAll o mapping fetchUp now false st = .ok (stF, r))
    (hdel : ∀ i, o.deleteOk i = true)
    (hfreshAll : ∀ n, st.nextId ≤ n → ∀ t ∈ st.txs, freshId n ≠ t.id) :
    jsReplaceFirst c.import_id "UPBANK:" = jsSubstring srcId 29 ∧
    (∀ s, ((sourceScan fetchUp earliest (restorableOf st.txs) mapping ([], [])).1.contains s
        = true ↔ ∃ p ∈ mapping, ∃ tx ∈ fetchUp p.1 earliest, jsSubstring tx.id 29 = s)) ∧
    (mkOrphan c ∈ r.orphanedTransactions ↔
      ¬∃ p ∈ mapping, ∃ tx ∈ fetchUp p.1 earliest,
        jsSubstring tx.id 29 = jsSubstring srcId 29) ∧
    (∀ x ∈ r.orphanedTransactions, ∀ t ∈ stF.txs, t.id = x.ynabId → t.deleted = true) := by
  have ha : jsReplaceFirst c.import_id "UPBANK:" = jsSubstring srcId 29 := by
    rw [hci]
    exact jsReplaceFirst_mkImportId srcId
  have hb : ∀ s, ((sourceScan fetchUp earliest (restorableOf st.txs) mapping ([], [])).1.contains s
      = true ↔ ∃ p ∈ mapping, ∃ tx ∈ fetchUp p.1 earliest, jsSubstring tx.id 29 = s) := by
    intro s
    have := sourceScan_contains fetchUp earliest (restorableOf st.txs) mapping ([], []) s
    simpa using this
  unfold performResyncAll at hlive
  obtain ⟨c₀, hcol', hrest⟩ := bind_eq_ok hlive
  rw [hcol] at hcol'
  injection hcol' with hc₀
  subst hc₀
  simp only at hrest
  obtain ⟨f, hsync, hjp⟩ := bind_eq_ok hrest
  simp only [Except.ok.injEq, Prod.mk.injEq] at hjp
  obtain ⟨hA, hB⟩ := hjp
  subst hA hB
  have hgood : goodMap st m :=
    collectStep_good o.listOk st mapping ([], none) (m, some earliest) hcol
      (by intro p hp; cases hp)
  refine ⟨ha, hb, ?_, ?_⟩
  · show mkOrphan c ∈ findOrphans (sourceScan fetchUp earliest (restorableOf st.txs) mapping
      ([], [])).1 m ↔ _
    rw [findOrphans_mem]
    constructor
    · rintro ⟨p, hp, c', hc', hcond', heq⟩ hex
      have hup : jsReplaceFirst c'.import_id "UPBANK:" = jsReplaceFirst c.import_id "UPBANK:" :=
        congrArg OrphanedTx.upId heq.symm
      rw [hup, ha] at hcond'
      rw [(hb (jsSubstring srcId 29)).mpr hex] at hcond'
      cases hcond'
    · intro hex
      refine ⟨(y, l), hml, c, hcl, ?_, rfl⟩
      rw [ha]
      cases hcc : (sourceScan fetchUp earliest (restorableOf st.txs) mapping
          ([], [])).1.contains (jsSubstring srcId 29)
      · rfl
      · exact absurd ((hb (jsSubstring srcId 29)).mp hcc) hex
  · intro x hx t ht htid
    have hxo := hx
    obtain ⟨p, hp, c', hc', hcond', hxeq⟩ := findOrphans_mem _ _ _ |>.mp hx
    obtain ⟨t₀, ht₀, _, hct₀⟩ := hgood p hp c' hc'
    have hxid : x.ynabId = t₀.id := by
      rw [hxeq, hct₀]
      rfl
    have hne : (findOrphans (sourceScan fetchUp earliest (restorableOf st.txs) mapping
        ([], [])).1 m).isEmpty = false := by
      rcases hemp : findOrphans (sourceScan fetchUp earliest (restorableOf st.txs) mapping
          ([], [])).1 m with _ | _
      · rw [hemp] at hx
        cases hx
      · rfl
    have hcond1 : (!false && !(findOrphans (sourceScan fetchUp earliest (restorableOf st.txs)
        mapping ([], [])).1 m).isEmpty) = true := by
      simp [hne]
    refine (syncAll_pres o fetchUp now earliest mapping _ f x.ynabId hsync ?_ ?_) t ht htid
    · by_cases hscan : (sourceScan fetchUp earliest (restorableOf st.txs) mapping
          ([], [])).2.isEmpty = true
      · have hcond2 : (!false && !(sourceScan fetchUp earliest (restorableOf st.txs) mapping
            ([], [])).2.isEmpty) = true → False := by
          simp [hscan]
        rw [if_neg hcond2, if_neg (by simp [hscan] :
          ¬((!(sourceScan fetchUp earliest (restorableOf st.txs) mapping
            ([], [])).2.isEmpty) = true))]
        show idDead (if _ then _ else (st, 0)).1 x.ynabId
        rw [if_pos hcond1]
        exact deleteOrphans_dead o.deleteOk hdel _ st x hxo
      · have hcond2 : (!false && !(sourceScan fetchUp earliest (restorableOf st.txs) mapping
            ([], [])).2.isEmpty) = true := by
          simp [hscan]
        rw [if_pos hcond2]
        refine (restoreGroups_pres o.restoreOk now _ _ x.ynabId ?_ ?_).1
        · show idDead (if _ then _ else (st, 0)).1 x.ynabId
          rw [if_pos hcond1]
          exact deleteOrphans_dead o.deleteOk hdel _ st x hxo
        · show FreshFor (if _ then _ else (st, 0)).1 x.ynabId
          rw [if_pos hcond1]
          intro n hn
          rw [deleteOrphans_nextId] at hn
          rw [hxid]
          exact hfreshAll n hn t₀ ht₀
    · by_cases hscan : (sourceScan fetchUp earliest (restorableOf st.txs) mapping
          ([], [])).2.isEmpty = true
      · rw [if_neg (by simp [hscan] :
            ¬((!false && !(sourceScan fetchUp earliest (restorableOf st.txs) mapping
              ([], [])).2.isEmpty) = true)),
          if_neg (by simp [hscan] :
            ¬((!(sourceScan fetchUp earliest (restorableOf st.txs) mapping
              ([], [])).2.isEmpty) = true))]
        show FreshFor (if _ then _ else (st, 0)).1 x.ynabId
        rw [if_pos hcond1]
        intro n hn
        rw [deleteOrphans_nextId] at hn
        rw [hxid]
        exact hfreshAll n hn t₀ ht₀
      · have hcond2 : (!false && !(sourceScan fetchUp earliest (restorableOf st.txs) mapping
            ([], [])).2.isEmpty) = true := by
          simp [hscan]
        rw [if_pos hcond2]
        refine (restoreGroups_pres o.restoreOk now _ _ x.ynabId ?_ ?_).2
        · show idDead (if _ then _ else (st, 0)).1 x.ynabId
          rw [if_pos hcond1]
          exact deleteOrphans_dead o.deleteOk hdel _ st x hxo
        · show FreshFor (if _ then _ else (st, 0)).1 x.ynabId
          rw [if_pos hcond1]
          intro n hn
          rw [deleteOrphans_nextId] at hn
          rw [hxid]
          exact hfreshAll n hn t₀ ht₀

/-- Witness for claim C2: the mirror of source transaction tx-1 is
collected, its stripped import id is tx-1 truncated to 29 characters,
the empty re-fetch leaves the scan set empty so the mirror is orphaned,
and the live pass soft-deletes it. -/
theorem orphan_truncated_key_witness :
    jsReplaceFirst "UPBANK:tx-1" "UPBANK:" = jsSubstring "tx-1" 29 ∧
    mkOrphan ⟨"t1", "UPBANK:tx-1", "Shop", none, "2024-04-30"⟩ ∈
      ([⟨"t1", "tx-1", "Shop", none, "2024-04-30"⟩] : List OrphanedTx) ∧
    (⟨"t1", "y1", "2024-04-30", none, some "Shop", none, .cleared, false,
      some "UPBANK:tx-1", true⟩ : YnabTx).deleted = true := by
  have hcol : collectStep allOk.listOk fixLedger fixMapping ([], none) =
      .ok ([("y1", [⟨"t1", "UPBANK:tx-1", "Shop", none, "2024-04-30"⟩])],
        some "2024-04-30") := rfl
  have he : performResyncAll allOk fixMapping (fun _ _ => []) "t" false fixLedger =
      .ok (⟨[⟨"t1", "y1", "2024-04-30", none, some "Shop", none, .cleared, false,
              some "UPBANK:tx-1", true⟩], 0, [.delete "t1"]⟩,
        ⟨false, some "2024-04-30", 0, 0, 0, 1,
         [⟨"t1", "tx-1", "Shop", none, "2024-04-30"⟩], 0, []⟩) := rfl
  have h := orphan_truncated_key allOk fixMapping (fun _ _ => []) "t" fixLedger _ _ _ _
    "tx-1" "y1" [⟨"t1", "UPBANK:tx-1", "Shop", none, "2024-04-30"⟩]
    ⟨"t1", "UPBANK:tx-1", "Shop", none, "2024-04-30"⟩
    hcol (by decide) (by decide) (by decide) he (fun _ => rfl)
    (fun n _ t ht => by
      have ht' : t ∈ [fixTx] := ht
      rcases ht' with _ | ⟨_, hh⟩
      · exact freshId_ne_of_head n "t1" (by decide)
      · cases hh)
  refine ⟨h.1, ?_, ?_⟩
  · refine h.2.2.1.mpr ?_
    rintro ⟨p, hp, tx, htx, -⟩
    cases htx
  · exact h.2.2.2 _ (List.mem_singleton.mpr rfl) _ (List.mem_singleton.mpr rfl) rfl

/-! ## Claim C4: restoration creates carry no import id -/

/-- The batched create appends exactly its own log entry. -/
theorem apiCreate_calls (st : Ledger) (es : List YnabSaveTx) :
    (apiCreate st es).1.calls = st.calls ++ [.create es] := by
  obtain ⟨new, -, -, h₃, -⟩ := createGo_txs es { st with calls := st.calls ++ [.create es] }
  exact h₃

/-- With every group create succeeding, the restoration phase appends one
logged create per account group, each of the group's transactions mapped
by the restoration mapper. -/
theorem restoreGroups_calls (resOk : String → Bool) (now : String)
    (hresOk : ∀ y, resOk y = true) (groups : List (String × List UpTx)) :
    ∀ st : Ledger, (restoreGroups resOk now groups st).1.calls =
      st.calls ++ groups.map (fun p => MutCall.create (p.2.map (mapUpToYnabRestore p.1 now))) := by
  induction groups with
  | nil =>
    intro st
    simp [restoreGroups]
  | cons p rest ih =>
    intro st
    obtain ⟨y, us⟩ := p
    show (restoreGroups resOk now ((y, us) :: rest) st).1.calls = _
    rw [restoreGroups, if_pos (hresOk y), ih, apiCreate_calls]
    simp

/-- A bucket member survives a push. -/
theorem bucketPush_mem_pres (m : List (String × List UpTx)) (k k₀ : String)
    (us₀ : List UpTx) (v x : UpTx) (h : (k₀, us₀) ∈ m) (hx : x ∈ us₀) :
    ∃ us, (k₀, us) ∈ bucketPush m k v ∧ x ∈ us := by
  unfold bucketPush
  by_cases ha : m.any (fun p => p.1 == k) = true
  · rw [if_pos ha]
    by_cases hk : (k₀ == k) = true
    · refine ⟨us₀ ++ [v], ?_, List.mem_append_left _ hx⟩
      have hm := List.mem_map_of_mem
        (fun p : String × List UpTx => if p.1 == k then (p.1, p.2 ++ [v]) else p) h
      simpa [hk] using hm
    · refine ⟨us₀, ?_, hx⟩
      have hm := List.mem_map_of_mem
        (fun p : String × List UpTx => if p.1 == k then (p.1, p.2 ++ [v]) else p) h
      simpa [hk] using hm
  · rw [if_neg ha]
    exact ⟨us₀, List.mem_append_left _ h, hx⟩

/-- Pushing a value lands it in its own key's bucket. -/
theorem bucketPush_mem_self (m : List (String × List UpTx)) (k : String) (v : UpTx) :
    ∃ us, (k, us) ∈ bucketPush m k v ∧ v ∈ us := by
  unfold bucketPush
  by_cases ha : m.any (fun p => p.1 == k) = true
  · rw [if_pos ha]
    obtain ⟨p, hp, hpk⟩ := List.any_eq_true.mp ha
    have hk : p.1 = k := by simpa using hpk
    refine ⟨p.2 ++ [v], ?_, List.mem_append_right _ (List.mem_singleton.mpr rfl)⟩
    have hm := List.mem_map_of_mem
      (fun p : String × List UpTx => if p.1 == k then (p.1, p.2 ++ [v]) else p) hp
    simpa [hpk, hk] using hm
  · rw [if_neg ha]
    exact ⟨[v], List.mem_append_right _ (List.mem_singleton.mpr rfl),
      List.mem_singleton.mpr rfl⟩

/-- Every queued candidate of the grouping fold ends up in the bucket of
its mapped account. -/
theorem groupFold_mem (toRes : List (UpTx × String)) :
    ∀ (acc : List (String × List UpTx)) (q : UpTx × String),
    q ∈ toRes ∨ (∃ us, (q.2, us) ∈ acc ∧ q.1 ∈ us) →
    ∃ us, (q.2, us) ∈ toRes.foldl (fun m p => bucketPush m p.2 p.1) acc ∧ q.1 ∈ us := by
  induction toRes with
  | nil =>
    intro acc q h
    rcases h with h | h
    · cases h
    · simpa using h
  | cons p rest ih =>
    intro acc q h
    rw [List.foldl_cons]
    rcases h with h | ⟨us₀, hmem, hx⟩
    · rcases List.mem_cons.mp h with h | h
      · subst h
        exact ih _ q (Or.inr (bucketPush_mem_self acc q.2 q.1))
      · exact ih _ q (Or.inl h)
    · exact ih _ q (Or.inr (bucketPush_mem_pres acc p.2 q.2 us₀ p.1 q.1 hmem hx))

/-- The call log grown by one successful incremental sync: nothing when
the mapped batch is empty, else exactly the logged create of the mapped
batch, possibly followed by update calls only. -/
theorem syncToYNAB_calls (o : SyncOracle) (accountId now : String) (ups : List UpTx)
    (st₀ st₁ : Ledger) (res : SyncResult)
    (hsync : syncToYNAB o accountId now ups st₀ = .ok (st₁, res)) :
    st₁.calls = st₀.calls ∨
    ∃ us, st₁.calls = st₀.calls ++ [.create (ups.map (mapUpToYnab accountId now))] ++ us ∧
      ∀ c ∈ us, ∃ e, c = MutCall.update e := by
  unfold syncToYNAB at hsync
  by_cases h1 : (ups.map (mapUpToYnab accountId now)).isEmpty = true
  · rw [if_pos h1] at hsync
    simp only [Except.ok.injEq, Prod.mk.injEq] at hsync
    exact Or.inl (hsync.1 ▸ rfl)
  · rw [if_neg h1] at hsync
    by_cases h2 : (!o.createOk) = true
    · rw [if_pos h2] at hsync
      simp at hsync
    · rw [if_neg h2] at hsync
      simp only at hsync
      by_cases h3 : ((apiCreate st₀ (ups.map (mapUpToYnab accountId now))).2.length == 0) = true
      · rw [if_pos h3] at hsync
        simp only [Except.ok.injEq, Prod.mk.injEq] at hsync
        refine Or.inr ⟨[], ?_, by simp⟩
        rw [← hsync.1, apiCreate_calls]
        simp
      · rw [if_neg h3] at hsync
        by_cases h4 : (!o.lookupOk) = true
        · rw [if_pos h4] at hsync
          simp only [Except.ok.injEq, Prod.mk.injEq] at hsync
          refine Or.inr ⟨[], ?_, by simp⟩
          rw [← hsync.1, apiCreate_calls]
          simp
        · rw [if_neg h4] at hsync
          by_cases h5 : (mkUpdates
              ((apiCreate st₀ (ups.map (mapUpToYnab accountId now))).1.byAccount accountId)
              (desiredPairs (ups.map (mapUpToYnab accountId now))
                (apiCreate st₀ (ups.map (mapUpToYnab accountId now))).2)).isEmpty = true
          · rw [if_pos h5] at hsync
            simp only [Except.ok.injEq, Prod.mk.injEq] at hsync
            refine Or.inr ⟨[], ?_, by simp⟩
            rw [← hsync.1, apiCreate_calls]
            simp
          · rw [if_neg h5] at hsync
            by_cases h6 : (!o.updateOk) = true
            · rw [if_pos h6] at hsync
              simp only [Except.ok.injEq, Prod.mk.injEq] at hsync
              refine Or.inr ⟨[], ?_, by simp⟩
              rw [← hsync.1, apiCreate_calls]
              simp
            · rw [if_neg h6] at hsync
              simp only [Except.ok.injEq, Prod.mk.injEq] at hsync
              refine Or.inr ⟨[.update (mkUpdates
                  ((apiCreate st₀ (ups.map (mapUpToYnab accountId now))).1.byAccount accountId)
                  (desiredPairs (ups.map (mapUpToYnab accountId now))
                    (apiCreate st₀ (ups.map (mapUpToYnab accountId now))).2))], ?_, ?_⟩
              · rw [← hsync.1]
                show (apiUpdate _ _).calls = _
                rw [apiUpdate]
                simp only [apiCreate_calls]
              · intro c hc
                rcases hc with _ | ⟨_, h⟩
                · exact ⟨_, rfl⟩
                · cases h

/-- Claim C4: in a live reconciliation pass whose group creates succeed,
the restoration phase batch-creates one group per mapped target account,
every entry mapped by the restoration mapper, which carries no import id
at all; the grouping puts each queued candidate into its own account's
bucket; and every create call issued by a successful incremental sync is
the mapped batch, each of whose entries carries the derived import id. -/
theorem restore_creates_no_import_id
    (resOk : String → Bool) (now : String) (groups : List (String × List UpTx)) (st : Ledger)
    (toRes : List (UpTx × String))
    (o : SyncOracle) (accountId : String) (ups : List UpTx) (st₀ st₁ : Ledger)
    (res : SyncResult)
    (hresOk : ∀ y, resOk y = true)
    (hsync : syncToYNAB o accountId now ups st₀ = .ok (st₁, res)) :
    ((restoreGroups resOk now groups st).1.calls =
      st.calls ++ groups.map (fun p => MutCall.create (p.2.map (mapUpToYnabRestore p.1 now)))) ∧
    (∀ p : String × List UpTx, ∀ e ∈ p.2.map (mapUpToYnabRestore p.1 now),
      e.import_id = none) ∧
    (∀ q ∈ toRes, ∃ us, (q.2, us) ∈ groupByAccount toRes ∧ q.1 ∈ us) ∧
    (∀ es, MutCall.create es ∈ st₁.calls → MutCall.create es ∉ st₀.calls →
      es = ups.map (mapUpToYnab accountId now) ∧
      ∀ e ∈ es, ∃ u ∈ ups, e = mapUpToYnab accountId now u ∧
        e.import_id = some (mkImportId u.id)) := by
  refine ⟨restoreGroups_calls resOk now hresOk groups st, ?_, ?_, ?_⟩
  · intro p e he
    obtain ⟨u, -, rfl⟩ := List.mem_map.mp he
    rfl
  · intro q hq
    exact groupFold_mem toRes [] q (Or.inl hq)
  · intro es hmem hnot
    have hes : es = ups.map (mapUpToYnab accountId now) := by
      rcases syncToYNAB_calls o accountId now ups st₀ st₁ res hsync with hc | ⟨us, hc, hus⟩
      · rw [hc] at hmem
        exact absurd hmem hnot
      · rw [hc] at hmem
        rcases List.mem_append.mp hmem with hmem | hmem
        · rcases List.mem_append.mp hmem with hmem | hmem
          · exact absurd hmem hnot
          · have h9 := List.mem_singleton.mp hmem
            injection h9
        · obtain ⟨e, he⟩ := hus _ hmem
          cases he
    subst hes
    refine ⟨rfl, ?_⟩
    intro e he
    obtain ⟨u, hu, rfl⟩ := List.mem_map.mp he
    exact ⟨u, hu, rfl, rfl⟩

/-- Witness for claim C4: restoring the malformed-amount source
transaction into account y1 issues one create whose single entry has
no import id, while the incremental sync of the same transaction
issues a create whose single entry carries the derived key. -/
theorem restore_creates_no_import_id_witness :
    (restoreGroups (fun _ => true) "t" [("y1", [malformedTx])] fixLedger).1.calls =
      fixLedger.calls ++ [MutCall.create [mapUpToYnabRestore "y1" "t" malformedTx]] ∧
    (mapUpToYnabRestore "y1" "t" malformedTx).import_id = none ∧
    (∃ us, ("y1", us) ∈ groupByAccount [(malformedTx, "y1")] ∧ malformedTx ∈ us) ∧
    (mapUpToYnab "y1" "t" malformedTx).import_id = some (mkImportId malformedTx.id) := by
  have h := restore_creates_no_import_id (fun _ => true) "t" [("y1", [malformedTx])] fixLedger
    [(malformedTx, "y1")] ⟨true, true, true⟩ "y1" [malformedTx] fixLedger
    ⟨[fixTx], 0, [.create [mapUpToYnab "y1" "t" malformedTx]]⟩ ⟨0, 1, 1⟩
    (fun _ => rfl) (by rfl)
  refine ⟨h.1, ?_, ?_, ?_⟩
  · exact h.2.1 ("y1", [malformedTx]) _ (List.mem_singleton.mpr rfl)
  · exact h.2.2.1 (malformedTx, "y1") (List.mem_singleton.mpr rfl)
  · obtain ⟨-, hall⟩ := h.2.2.2 [mapUpToYnab "y1" "t" malformedTx]
      (List.mem_singleton.mpr rfl) (List.not_mem_nil _)
    obtain ⟨u, hu, -, himp⟩ := hall _ (List.mem_singleton.mpr rfl)
    obtain rfl := List.mem_singleton.mp hu
    exact himp

end UpYnab